import Mathlib

/-!
Shallow embedding of the rudis RESP decoder (src/protocol/resp.rs) and the
command interpreter (src/command/commands.rs).

Bytes are modelled as natural numbers; a Rust `&[u8]` buffer is `List Nat`.
A Rust `String` / `&str` is modelled by the list of its UTF-8 bytes (valid
UTF-8 by construction wherever the source produced it via `from_utf8`).
Fallible nom parsers (`IResult`) are modelled as `Option (result × rest)`;
fallible `anyhow::Result` functions as `Except RudisErr`.
-/

/-- Predicate for a UTF-8 continuation byte, in the range 0x80 to 0xBF. -/
def isCont (b : Nat) : Bool := 128 ≤ b && b ≤ 191

/-- UTF-8 validity of a byte sequence, following the standard table used by
Rust's `std::str::from_utf8` (RFC 3629: no overlong forms, no surrogates,
maximum code point U+10FFFF). -/
def isValidUTF8 : List Nat → Bool
  | [] => true
  | b0 :: r0 =>
    if b0 ≤ 127 then isValidUTF8 r0
    else
      match r0 with
      | [] => false
      | b1 :: r1 =>
        if 194 ≤ b0 && b0 ≤ 223 then isCont b1 && isValidUTF8 r1
        else
          match r1 with
          | [] => false
          | b2 :: r2 =>
            if b0 = 224 then (160 ≤ b1 && b1 ≤ 191) && (isCont b2 && isValidUTF8 r2)
            else if (225 ≤ b0 && b0 ≤ 236) || b0 = 238 || b0 = 239 then
              isCont b1 && (isCont b2 && isValidUTF8 r2)
            else if b0 = 237 then (128 ≤ b1 && b1 ≤ 159) && (isCont b2 && isValidUTF8 r2)
            else
              match r2 with
              | [] => false
              | b3 :: r3 =>
                if b0 = 240 then (144 ≤ b1 && b1 ≤ 191) && (isCont b2 && isCont b3 && isValidUTF8 r3)
                else if 241 ≤ b0 && b0 ≤ 243 then isCont b1 && (isCont b2 && isCont b3 && isValidUTF8 r3)
                else if b0 = 244 then (128 ≤ b1 && b1 ≤ 143) && (isCont b2 && isCont b3 && isValidUTF8 r3)
                else false

/-- ASCII decimal digit test. -/
def isDigit (b : Nat) : Bool := 48 ≤ b && b ≤ 57

/-- Numeric value of a list of ASCII decimal digit bytes, most significant first. -/
def digitsVal (l : List Nat) : Nat := l.foldl (fun a b => a * 10 + (b - 48)) 0

/-- Core of Rust's integer `FromStr`: after the optional sign, the input must be a
non-empty run of ASCII digits whose value fits the target range.  The incremental
checked arithmetic of the Rust implementation accepts exactly these strings. -/
def parseDigitsBounded (digits : List Nat) (bound : Nat) : Option Nat :=
  if digits.isEmpty then none
  else if digits.all isDigit then
    if digitsVal digits ≤ bound then some (digitsVal digits) else none
  else none

/-- Model of `str::parse::<i64>` on the UTF-8 bytes of the string: optional
leading `+` or `-`, then decimal digits, range-checked against i64. -/
def parseI64 (s : List Nat) : Option Int :=
  match s with
  | [] => none
  | b :: rest =>
    if b = 43 then
      match parseDigitsBounded rest (2 ^ 63 - 1) with
      | none => none
      | some m => some (m : Int)
    else if b = 45 then
      match parseDigitsBounded rest (2 ^ 63) with
      | none => none
      | some m => some (-(m : Int))
    else
      match parseDigitsBounded s (2 ^ 63 - 1) with
      | none => none
      | some m => some (m : Int)

/-- Model of `str::parse::<u64>`: optional leading `+`, then decimal digits,
range-checked against u64.  A leading `-` is rejected. -/
def parseU64 (s : List Nat) : Option Nat :=
  match s with
  | [] => none
  | b :: rest =>
    if b = 43 then parseDigitsBounded rest (2 ^ 64 - 1)
    else parseDigitsBounded s (2 ^ 64 - 1)

/-- Model of Rust's `as usize` cast from i64 (wrapping two's-complement conversion). -/
def usize (z : Int) : Nat := (z % (2 ^ 64 : Int)).toNat

/-- The RESP wire value tree, mirroring `enum RESPType` in src/protocol/resp.rs.
`Str`/`Error` carry the UTF-8 bytes of the Rust `String`. -/
inductive RESPType where
  | Str (s : List Nat)
  | Error (s : List Nat)
  | Integer (n : Int)
  | BulkStr (v : Option (List Nat))
  | Arr (v : Option (List RESPType))

/-- Mirror of `enum ConvertErr` in src/protocol/resp.rs. -/
inductive ConvertErr where
  | NotStr
  | NotInt
  | EmptyArr
  | NotArr
deriving DecidableEq

/-- Mirror of `enum CommandErr` in src/command/commands.rs. -/
inductive CommandErr where
  | LackArgs (required provided : Nat)
  | NullStr
  | WrongValueType
  | UnknownCommand (name : List Nat)
deriving DecidableEq

/-- The `anyhow::Error` values that can flow through this core: a `ConvertErr`,
a `CommandErr`, a `Utf8Error` from `from_utf8`, or a `ParseIntError` from
`str::parse`. -/
inductive RudisErr where
  | conv (e : ConvertErr)
  | cmd (e : CommandErr)
  | utf8
  | parseNum
deriving DecidableEq

/-- Model of nom's `char(c)` on a byte slice: consumes one byte equal to `c`. -/
def charP (c : Nat) : List Nat → Option (List Nat)
  | [] => none
  | b :: r => if b = c then some r else none

/-- Model of nom's `take_until("\r")`: splits at the first carriage-return byte,
failing when the input contains none. -/
def takeUntilCR : List Nat → Option (List Nat × List Nat)
  | [] => none
  | b :: r =>
    if b = 13 then some ([], b :: r)
    else
      match takeUntilCR r with
      | none => none
      | some (s, rest) => some (b :: s, rest)

/-- Model of nom's `crlf`: consumes the two bytes 13, 10. -/
def crlfP : List Nat → Option (List Nat)
  | 13 :: 10 :: r => some r
  | _ => none

/-- Model of nom's `take_while_m_n(m, m, |_| true)`: takes exactly `m` bytes,
failing when fewer are available. -/
def takeExact (m : Nat) (i : List Nat) : Option (List Nat × List Nat) :=
  if m ≤ i.length then some (i.take m, i.drop m) else none

/-- Model of `fn ps` in src/protocol/resp.rs:
`map_res(delimited(char(c), take_until("\r"), crlf), from_utf8)`. -/
def ps (c : Nat) (i : List Nat) : Option (List Nat × List Nat) :=
  match charP c i with
  | none => none
  | some r1 =>
    match takeUntilCR r1 with
    | none => none
    | some (s, r2) =>
      match crlfP r2 with
      | none => none
      | some r3 => if isValidUTF8 s then some (s, r3) else none

/-- Model of `fn pi` in src/protocol/resp.rs:
`map_res(delimited(char(c), take_until("\r"), crlf), |s| from_utf8(s)?.parse::<i64>())`. -/
def pi (c : Nat) (i : List Nat) : Option (Int × List Nat) :=
  match charP c i with
  | none => none
  | some r1 =>
    match takeUntilCR r1 with
    | none => none
    | some (s, r2) =>
      match crlfP r2 with
      | none => none
      | some r3 =>
        if isValidUTF8 s then
          match parseI64 s with
          | none => none
          | some n => some (n, r3)
        else none

/-- Model of `fn parse_str`: `map(ps('+'), RESPType::Str)`. -/
def parse_str (i : List Nat) : Option (RESPType × List Nat) :=
  match ps 43 i with
  | none => none
  | some (s, r) => some (.Str s, r)

/-- Model of `fn parse_err`: `map(ps('-'), RESPType::Error)`. -/
def parse_err (i : List Nat) : Option (RESPType × List Nat) :=
  match ps 45 i with
  | none => none
  | some (s, r) => some (.Error s, r)

/-- Model of `fn parse_integer`:
`map_res(delimited(char(':'), take_until("\r"), crlf), |s| from_utf8(s)?.parse::<i64>())`
wrapped as `RESPType::Integer`. -/
def parse_integer (i : List Nat) : Option (RESPType × List Nat) :=
  match pi 58 i with
  | none => none
  | some (n, r) => some (.Integer n, r)

/-- Model of `fn parse_bulk_str`: read a `$`-prefixed signed length; `-1` gives the
null bulk string, otherwise `len as usize` raw bytes followed by CR-LF. -/
def parse_bulk_str (i : List Nat) : Option (RESPType × List Nat) :=
  match pi 36 i with
  | none => none
  | some (len, rest) =>
    if len = -1 then some (.BulkStr none, rest)
    else
      match takeExact (usize len) rest with
      | none => none
      | some (s, r2) =>
        match crlfP r2 with
        | none => none
        | some r3 => some (.BulkStr (some s), r3)

/-- Model of nom's `many_m_n(m, m, p)`: apply `p` exactly `m` times in sequence,
with nom's infinite-loop guard (an iteration that consumes nothing is an error). -/
def manyExactP (p : List Nat → Option (RESPType × List Nat)) :
    Nat → List Nat → Option (List RESPType × List Nat)
  | 0, i => some ([], i)
  | m + 1, i =>
    match p i with
    | none => none
    | some (v, rest) =>
      if rest.length = i.length then none
      else
        match manyExactP p m rest with
        | none => none
        | some (vs, r2) => some (v :: vs, r2)

/-- Model of `fn parse_arr`, parameterised by the element parser: read a
`*`-prefixed signed count; `-1` gives the null array, otherwise exactly
`len as usize` consecutive elements. -/
def parse_arr (p : List Nat → Option (RESPType × List Nat)) (i : List Nat) :
    Option (RESPType × List Nat) :=
  match pi 42 i with
  | none => none
  | some (len, rest) =>
    if len = -1 then some (.Arr none, rest)
    else
      match manyExactP p (usize len) rest with
      | none => none
      | some (vs, r2) => some (.Arr (some vs), r2)

/-- Fuel-indexed model of `fn parse_raw`: `alt` over the five productions in
source order.  The fuel only bounds the nesting depth of arrays; every array
header consumes at least four bytes, so fuel equal to the input length is
always sufficient (see the fuel-independence results below). -/
def parseRawF : Nat → List Nat → Option (RESPType × List Nat)
  | 0, _ => none
  | f + 1, i =>
    match parse_str i with
    | some r => some r
    | none =>
      match parse_err i with
      | some r => some r
      | none =>
        match parse_integer i with
        | some r => some r
        | none =>
          match parse_bulk_str i with
          | some r => some r
          | none => parse_arr (parseRawF f) i

/-- Top-level model of `pub fn parse_raw`. -/
def parse_raw (i : List Nat) : Option (RESPType × List Nat) :=
  parseRawF i.length i

/-- Element supply of a buffer: `parseChain k i` succeeds exactly when `k`
consecutive wire values can be decoded starting at `i`, returning the final
remainder.  Its failure is the precise sense in which a buffer holds fewer
decodable elements than an array count demands. -/
def parseChain : Nat → List Nat → Option (List Nat)
  | 0, i => some i
  | k + 1, i =>
    match parse_raw i with
    | none => none
    | some (_, r) => parseChain k r


/-- Accessor `RESPType::get_string`: a `Str` yields its text directly; a non-null
`BulkStr` is passed through `from_utf8`; everything else fails `NotStr`. -/
def RESPType.get_string : RESPType → Except RudisErr (List Nat)
  | .Str v => .ok v
  | .BulkStr (some v) => if isValidUTF8 v then .ok v else .error .utf8
  | .BulkStr none => .error (.conv .NotStr)
  | _ => .error (.conv .NotStr)

/-- Accessor `RESPType::get_int`: succeeds only on `Integer`. -/
def RESPType.get_int : RESPType → Except RudisErr Int
  | .Integer v => .ok v
  | _ => .error (.conv .NotInt)

/-- Accessor `RESPType::to_arr`: succeeds only on a present, non-empty array;
an empty array fails `EmptyArr`, a null array or any other variant fails `NotArr`. -/
def RESPType.to_arr : RESPType → Except RudisErr (List RESPType)
  | .Arr (some arr) => if arr.isEmpty then .error (.conv .EmptyArr) else .ok arr
  | _ => .error (.conv .NotArr)

/-- Mirror of `enum SetX` in src/command/commands.rs. -/
inductive SetX where
  | NX
  | XX
deriving DecidableEq

/-- Mirror of `enum Value` in src/command/commands.rs: `Num(i64)`,
`BSStr(Vec<u8>)`, `Str(String)`. -/
inductive Value where
  | Num (n : Int)
  | BSStr (v : List Nat)
  | Str (s : List Nat)
deriving DecidableEq

/-- Model of `std::time::Duration`, stored as a total number of milliseconds
(injective image of the secs/nanos pair for the durations this core builds). -/
structure Duration where
  millis : Nat
deriving DecidableEq

/-- Model of `Duration::from_secs`. -/
def Duration.from_secs (n : Nat) : Duration := ⟨n * 1000⟩

/-- Model of `Duration::from_millis`. -/
def Duration.from_millis (n : Nat) : Duration := ⟨n⟩

/-- Mirror of `impl TryFrom<&RESPType> for Value`. -/
def Value.tryFrom : RESPType → Except RudisErr Value
  | .Integer v => .ok (.Num v)
  | .BulkStr (some v) => .ok (.BSStr v)
  | .BulkStr none => .error (.cmd .NullStr)
  | .Str v => .ok (.Str v)
  | _ => .error (.cmd .WrongValueType)

/-- Mirror of `struct SetCmd`. -/
structure SetCmd where
  key : List Nat
  value : Value
  expire : Option Duration
  setx : Option SetX
deriving DecidableEq

/-- The expiry stage of `SetCmd::try_from`: with at least two remaining
arguments, token `ex` (bytes 101, 120) consumes the next argument as seconds and
token `px` (112, 120) as milliseconds; any other token consumes nothing. -/
def parseExpire : List RESPType → Except RudisErr (Option Duration × List RESPType)
  | b0 :: b1 :: rest =>
    match b0.get_string with
    | .error e => .error e
    | .ok w =>
      if w = [101, 120] then
        match b1.get_string with
        | .error e => .error e
        | .ok s =>
          match parseU64 s with
          | none => .error .parseNum
          | some u => .ok (some (Duration.from_secs u), rest)
      else if w = [112, 120] then
        match b1.get_string with
        | .error e => .error e
        | .ok s =>
          match parseU64 s with
          | none => .error .parseNum
          | some u => .ok (some (Duration.from_millis u), rest)
      else .ok (none, b0 :: b1 :: rest)
  | arr => .ok (none, arr)

/-- The existence-mode stage of `SetCmd::try_from`: with at least one remaining
argument, token `nx` (bytes 110, 120) selects NX and `xx` (120, 120) selects XX;
any other token selects none. -/
def parseSetx : List RESPType → Except RudisErr (Option SetX)
  | c0 :: _ =>
    match c0.get_string with
    | .error e => .error e
    | .ok w =>
      if w = [110, 120] then .ok (some .NX)
      else if w = [120, 120] then .ok (some .XX)
      else .ok none
  | [] => .ok none

/-- Mirror of `impl TryFrom<&[RESPType]> for SetCmd`: at least two arguments,
key then value, then the expiry stage, then the existence-mode stage. -/
def SetCmd.tryFrom : List RESPType → Except RudisErr SetCmd
  | a0 :: a1 :: rest =>
    match a0.get_string with
    | .error e => .error e
    | .ok key =>
      match Value.tryFrom a1 with
      | .error e => .error e
      | .ok value =>
        match parseExpire rest with
        | .error e => .error e
        | .ok (expire, rest2) =>
          match parseSetx rest2 with
          | .error e => .error e
          | .ok setx => .ok ⟨key, value, expire, setx⟩
  | arr => .error (.cmd (.LackArgs 2 arr.length))

/-- Mirror of `struct Get`. -/
structure Get where
  key : List Nat
deriving DecidableEq

/-- Mirror of `impl TryFrom<&[RESPType]> for Get`. -/
def Get.tryFrom : List RESPType → Except RudisErr Get
  | [] => .error (.cmd (.LackArgs 1 0))
  | a0 :: _ =>
    match a0.get_string with
    | .error e => .error e
    | .ok key => .ok ⟨key⟩

/-- Mirror of `struct GetSet`. -/
structure GetSet where
  key : List Nat
  val : Value
deriving DecidableEq

/-- Mirror of `impl TryFrom<&[RESPType]> for GetSet`: `ensure!(n == 2, LackArgs(2, n))`
then key and value. -/
def GetSet.tryFrom (v : List RESPType) : Except RudisErr GetSet :=
  match v with
  | [a0, a1] =>
    match a0.get_string with
    | .error e => .error e
    | .ok key =>
      match Value.tryFrom a1 with
      | .error e => .error e
      | .ok val => .ok ⟨key, val⟩
  | _ => .error (.cmd (.LackArgs 2 v.length))

/-- Mirror of `struct StrLen`. -/
structure StrLen where
  key : List Nat
deriving DecidableEq

/-- Mirror of `impl TryFrom<&[RESPType]> for StrLen`: `ensure!(v.len() == 1, LackArgs(1, n))`. -/
def StrLen.tryFrom (v : List RESPType) : Except RudisErr StrLen :=
  match v with
  | [a0] =>
    match a0.get_string with
    | .error e => .error e
    | .ok key => .ok ⟨key⟩
  | _ => .error (.cmd (.LackArgs 1 v.length))

/-- Mirror of `struct Exists` (renamed: `Exists` is Lean's existential quantifier). -/
structure ExistsCmd where
  key : List Nat
deriving DecidableEq

/-- Mirror of `impl TryFrom<&[RESPType]> for Exists`: `ensure!(v.len() == 1, LackArgs(1, n))`. -/
def ExistsCmd.tryFrom (v : List RESPType) : Except RudisErr ExistsCmd :=
  match v with
  | [a0] =>
    match a0.get_string with
    | .error e => .error e
    | .ok key => .ok ⟨key⟩
  | _ => .error (.cmd (.LackArgs 1 v.length))

/-- Mirror of `struct Del`. -/
structure Del where
  keys : List (List Nat)
deriving DecidableEq

/-- Mirror of `impl TryFrom<&[RESPType]> for Del`: at least one argument, every
argument converted through `get_string` in order. -/
def Del.tryFrom (v : List RESPType) : Except RudisErr Del :=
  match v with
  | [] => .error (.cmd (.LackArgs 1 0))
  | _ =>
    match v.mapM RESPType.get_string with
    | .error e => .error e
    | .ok keys => .ok ⟨keys⟩

/-- Mirror of `enum RedisCommands`. -/
inductive RedisCommands where
  | SetCmdV (c : SetCmd)
  | GetV (c : Get)
  | GetSetV (c : GetSet)
  | StrLenV (c : StrLen)
  | ExistsV (c : ExistsCmd)
  | DelV (c : Del)
deriving DecidableEq

/-- Mirror of `impl TryFrom<&RESPType> for RedisCommands`: require a non-empty
array, read the command name from the first element, dispatch case-sensitively
on the lower-case literals, pass the remaining elements to the sub-parser.
The byte lists are the UTF-8 of set, get, getset, strlen, exists, del. -/
def RedisCommands.tryFrom (value : RESPType) : Except RudisErr RedisCommands :=
  match value.to_arr with
  | .error e => .error e
  | .ok arr =>
    match arr with
    | [] => .error (.conv .NotArr)  -- unreachable: to_arr only returns non-empty lists
    | a0 :: rest =>
      match a0.get_string with
      | .error e => .error e
      | .ok action =>
        if action = [115, 101, 116] then
          match SetCmd.tryFrom rest with
          | .error e => .error e
          | .ok c => .ok (.SetCmdV c)
        else if action = [103, 101, 116] then
          match Get.tryFrom rest with
          | .error e => .error e
          | .ok c => .ok (.GetV c)
        else if action = [103, 101, 116, 115, 101, 116] then
          match GetSet.tryFrom rest with
          | .error e => .error e
          | .ok c => .ok (.GetSetV c)
        else if action = [115, 116, 114, 108, 101, 110] then
          match StrLen.tryFrom rest with
          | .error e => .error e
          | .ok c => .ok (.StrLenV c)
        else if action = [101, 120, 105, 115, 116, 115] then
          match ExistsCmd.tryFrom rest with
          | .error e => .error e
          | .ok c => .ok (.ExistsV c)
        else if action = [100, 101, 108] then
          match Del.tryFrom rest with
          | .error e => .error e
          | .ok c => .ok (.DelV c)
        else .error (.cmd (.UnknownCommand action))

/-- Fuel-indexed most-significant-first decimal digit writer for naturals. -/
def natDigitsF : Nat → Nat → List Nat
  | 0, _ => []
  | f + 1, n => if n < 10 then [48 + n] else natDigitsF f (n / 10) ++ [48 + n % 10]

/-- Canonical ASCII decimal representation of a natural number. -/
def natDigits (n : Nat) : List Nat := natDigitsF (n + 1) n

/-- Canonical ASCII signed decimal representation of an integer. -/
def intDigits (z : Int) : List Nat :=
  if z < 0 then 45 :: natDigits (-z).toNat else natDigits z.toNat

mutual
/-- Section-6 wire encoding of a `RESPType` value: this is the spec's encoder,
used only to state the round-trip property. -/
def encode : RESPType → List Nat
  | .Str s => 43 :: (s ++ [13, 10])
  | .Error s => 45 :: (s ++ [13, 10])
  | .Integer n => 58 :: (intDigits n ++ [13, 10])
  | .BulkStr none => [36, 45, 49, 13, 10]
  | .BulkStr (some b) => 36 :: (natDigits b.length ++ [13, 10] ++ b ++ [13, 10])
  | .Arr none => [42, 45, 49, 13, 10]
  | .Arr (some l) => 42 :: (natDigits l.length ++ [13, 10] ++ encodeList l)
/-- Concatenated encodings of a list of values. -/
def encodeList : List RESPType → List Nat
  | [] => []
  | v :: vs => encode v ++ encodeList vs
end

mutual
/-- Well-formedness of a value per the section-6 wire grammar: simple and error
text is valid UTF-8 free of carriage-return, bulk payloads are genuine bytes,
integers fit in i64, and lengths and counts are representable (below 2^63, the
Rust slice-size bound), recursively through arrays. -/
def wfRESP : RESPType → Bool
  | .Str s => isValidUTF8 s && !(s.contains 13)
  | .Error s => isValidUTF8 s && !(s.contains 13)
  | .Integer n => decide (-(2 ^ 63) ≤ n) && decide (n < 2 ^ 63)
  | .BulkStr none => true
  | .BulkStr (some b) => b.all (fun x => x < 256) && decide (b.length < 2 ^ 63)
  | .Arr none => true
  | .Arr (some l) => decide (l.length < 2 ^ 63) && wfList l
/-- Well-formedness of every element of a list of values. -/
def wfList : List RESPType → Bool
  | [] => true
  | v :: vs => wfRESP v && wfList vs
end

mutual
/-- Array-nesting height of a value: the parser fuel needed to decode it. -/
def height : RESPType → Nat
  | .Arr (some l) => heightList l + 1
  | _ => 1
/-- Maximum height over a list of values. -/
def heightList : List RESPType → Nat
  | [] => 0
  | v :: vs => max (height v) (heightList vs)
end

mutual
/-- Absence of carriage-return bytes in every `Str` and `Error` text of a value,
recursively through arrays. -/
def noCR : RESPType → Bool
  | .Str s => !(s.contains 13)
  | .Error s => !(s.contains 13)
  | .Arr (some l) => noCRList l
  | _ => true
/-- `noCR` over every element of a list of values. -/
def noCRList : List RESPType → Bool
  | [] => true
  | v :: vs => noCR v && noCRList vs
end

/-- Successful `charP` means the input started with the expected byte. -/
theorem charP_some {c : Nat} {i r : List Nat} (h : charP c i = some r) : i = c :: r := by
  cases i with
  | nil => exact absurd h (by simp [charP])
  | cons b t =>
    by_cases hb : b = c
    · simp [charP, hb] at h
      simp [hb, h]
    · simp [charP, hb] at h

/-- Successful `takeUntilCR` splits the input at its first carriage return. -/
theorem takeUntilCR_some : ∀ {i s r : List Nat}, takeUntilCR i = some (s, r) →
    i = s ++ r ∧ 13 ∉ s ∧ ∃ r0, r = 13 :: r0 := by
  intro i
  induction i with
  | nil => intro s r h; simp [takeUntilCR] at h
  | cons b t ih =>
    intro s r h
    by_cases hb : b = 13
    · subst hb
      simp [takeUntilCR] at h
      obtain ⟨hs, hr⟩ := h
      subst hs
      exact ⟨by simp [hr], by simp, t, hr.symm⟩
    · cases htu : takeUntilCR t with
      | none => rw [takeUntilCR] at h; simp [hb, htu] at h
      | some pr =>
        obtain ⟨s0, r0⟩ := pr
        rw [takeUntilCR] at h
        simp [hb, htu] at h
        obtain ⟨hs, hr⟩ := h
        obtain ⟨hi, hns, hr13⟩ := ih htu
        subst hs
        constructor
        · simp [hi, hr]
        · refine ⟨?_, ?_⟩
          · intro hm
            rcases List.mem_cons.mp hm with h13 | h13
            · exact hb h13.symm
            · exact hns h13
          · obtain ⟨r1, hr1⟩ := hr13
            exact ⟨r1, by rw [← hr, hr1]⟩

/-- `takeUntilCR` on a CR-free prefix followed by a CR stops exactly there. -/
theorem takeUntilCR_append {s r : List Nat} (hs : 13 ∉ s) :
    takeUntilCR (s ++ 13 :: r) = some (s, 13 :: r) := by
  induction s with
  | nil => simp [takeUntilCR]
  | cons b t ih =>
    have hb : b ≠ 13 := fun e => hs (by simp [e])
    have ht : 13 ∉ t := fun m => hs (by simp [m])
    simp only [List.cons_append, takeUntilCR, hb, if_false, List.append_eq, ih ht]

/-- Successful `crlfP` means the input started with CR LF. -/
theorem crlfP_some : ∀ {i r : List Nat}, crlfP i = some r → i = 13 :: 10 :: r := by
  intro i r h
  unfold crlfP at h
  split at h
  · rename_i t
    cases h
    rfl
  · exact absurd h (by simp)

/-- Successful `takeExact` splits off exactly `m` leading bytes. -/
theorem takeExact_some {m : Nat} {i s r : List Nat} (h : takeExact m i = some (s, r)) :
    i = s ++ r ∧ s.length = m := by
  unfold takeExact at h
  split at h
  · rename_i hle
    simp only [Option.some.injEq, Prod.mk.injEq] at h
    obtain ⟨hs, hr⟩ := h
    subst hs
    subst hr
    exact ⟨(List.take_append_drop m i).symm, by simp [List.length_take]; omega⟩
  · exact absurd h (by simp)

/-- `takeExact` at the exact length of a leading block returns that block. -/
theorem takeExact_append {s r : List Nat} : takeExact s.length (s ++ r) = some (s, r) := by
  unfold takeExact
  rw [if_pos (by simp)]
  simp

/-- `takeExact` fails when the buffer is shorter than the requested length. -/
theorem takeExact_short {m : Nat} {i : List Nat} (h : i.length < m) : takeExact m i = none := by
  unfold takeExact
  rw [if_neg (by omega)]

/-- Inversion for `ps`: a successful line parse exhibits the input's exact shape,
a CR-free valid-UTF-8 text between the prefix byte and a CR LF. -/
theorem ps_some {c : Nat} {i s r : List Nat} (h : ps c i = some (s, r)) :
    i = c :: (s ++ 13 :: 10 :: r) ∧ 13 ∉ s ∧ isValidUTF8 s = true := by
  unfold ps at h
  cases hc : charP c i with
  | none => simp [hc] at h
  | some r1 =>
    simp only [hc] at h
    cases htu : takeUntilCR r1 with
    | none => simp [htu] at h
    | some pr =>
      obtain ⟨s0, r2⟩ := pr
      simp only [htu] at h
      cases hcr : crlfP r2 with
      | none => simp [hcr] at h
      | some r3 =>
        simp only [hcr] at h
        by_cases hv : isValidUTF8 s0 = true
        · rw [if_pos hv] at h
          simp only [Option.some.injEq, Prod.mk.injEq] at h
          obtain ⟨hs, hr⟩ := h
          subst hs
          subst hr
          obtain ⟨h1, h2, r4, h3⟩ := takeUntilCR_some htu
          have h5 := crlfP_some hcr
          refine ⟨?_, h2, hv⟩
          rw [charP_some hc, h1, h5]
        · rw [if_neg hv] at h
          exact absurd h (by simp)

/-- Introduction for `ps` on a well-shaped line. -/
theorem ps_intro {c : Nat} {s t : List Nat} (hs : 13 ∉ s) (hv : isValidUTF8 s = true) :
    ps c (c :: (s ++ 13 :: 10 :: t)) = some (s, t) := by
  have h1 : charP c (c :: (s ++ 13 :: 10 :: t)) = some (s ++ 13 :: 10 :: t) := by
    simp [charP]
  unfold ps
  simp only [h1, takeUntilCR_append hs, crlfP, hv, if_true]

/-- Inversion for `pi`: a successful length line exhibits the input's shape and
the parsed signed decimal. -/
theorem pi_some {c : Nat} {i : List Nat} {n : Int} {r : List Nat} (h : pi c i = some (n, r)) :
    ∃ s, i = c :: (s ++ 13 :: 10 :: r) ∧ 13 ∉ s ∧ isValidUTF8 s = true ∧ parseI64 s = some n := by
  unfold pi at h
  cases hc : charP c i with
  | none => simp [hc] at h
  | some r1 =>
    simp only [hc] at h
    cases htu : takeUntilCR r1 with
    | none => simp [htu] at h
    | some pr =>
      obtain ⟨s0, r2⟩ := pr
      simp only [htu] at h
      cases hcr : crlfP r2 with
      | none => simp [hcr] at h
      | some r3 =>
        simp only [hcr] at h
        by_cases hv : isValidUTF8 s0 = true
        · rw [if_pos hv] at h
          cases hp : parseI64 s0 with
          | none => simp [hp] at h
          | some n0 =>
            simp only [hp, Option.some.injEq, Prod.mk.injEq] at h
            obtain ⟨hn, hr⟩ := h
            subst hn
            subst hr
            obtain ⟨h1, h2, r4, h3⟩ := takeUntilCR_some htu
            have h5 := crlfP_some hcr
            exact ⟨s0, by rw [charP_some hc, h1, h5], h2, hv, hp⟩
        · rw [if_neg hv] at h
          exact absurd h (by simp)

/-- Introduction for `pi` on a well-shaped length line. -/
theorem pi_intro {c : Nat} {s t : List Nat} {n : Int} (hs : 13 ∉ s)
    (hv : isValidUTF8 s = true) (hp : parseI64 s = some n) :
    pi c (c :: (s ++ 13 :: 10 :: t)) = some (n, t) := by
  have h1 : charP c (c :: (s ++ 13 :: 10 :: t)) = some (s ++ 13 :: 10 :: t) := by
    simp [charP]
  unfold pi
  simp only [h1, takeUntilCR_append hs, crlfP, hv, if_true, hp]

/-- `pi` fails whenever the first byte is not the expected prefix. -/
theorem pi_head {c b : Nat} {r : List Nat} (hb : b ≠ c) : pi c (b :: r) = none := by
  unfold pi
  simp [charP, hb]

/-- `ps` fails whenever the first byte is not the expected prefix. -/
theorem ps_head {c b : Nat} {r : List Nat} (hb : b ≠ c) : ps c (b :: r) = none := by
  unfold ps
  simp [charP, hb]

/-- `parse_str` fails on inputs not starting with a plus sign. -/
theorem parse_str_head (b : Nat) {r : List Nat} (hb : b ≠ 43) : parse_str (b :: r) = none := by
  unfold parse_str
  rw [ps_head hb]

/-- `parse_err` fails on inputs not starting with a minus sign. -/
theorem parse_err_head (b : Nat) {r : List Nat} (hb : b ≠ 45) : parse_err (b :: r) = none := by
  unfold parse_err
  rw [ps_head hb]

/-- `parse_integer` fails on inputs not starting with a colon. -/
theorem parse_integer_head (b : Nat) {r : List Nat} (hb : b ≠ 58) :
    parse_integer (b :: r) = none := by
  unfold parse_integer
  rw [pi_head hb]

/-- `parse_bulk_str` fails on inputs not starting with a dollar sign. -/
theorem parse_bulk_str_head (b : Nat) {r : List Nat} (hb : b ≠ 36) :
    parse_bulk_str (b :: r) = none := by
  unfold parse_bulk_str
  rw [pi_head hb]

/-- `parse_arr` fails on inputs not starting with an asterisk. -/
theorem parse_arr_head {p : List Nat → Option (RESPType × List Nat)} (b : Nat) {r : List Nat}
    (hb : b ≠ 42) : parse_arr p (b :: r) = none := by
  unfold parse_arr
  rw [pi_head hb]

/-- Any list of 7-bit bytes is valid UTF-8. -/
theorem isValidUTF8_ascii : ∀ {l : List Nat}, (∀ b ∈ l, b ≤ 127) → isValidUTF8 l = true := by
  intro l
  induction l with
  | nil => intro _; rfl
  | cons b t ih =>
    intro h
    have hb : b ≤ 127 := h b (by simp)
    rw [isValidUTF8.eq_def]
    simp only [hb, if_true, if_pos]
    exact ih (fun x hx => h x (by simp [hx]))

/-- Appending a digit multiplies the value by ten and adds the digit. -/
theorem digitsVal_append_digit (l : List Nat) (d : Nat) :
    digitsVal (l ++ [d]) = digitsVal l * 10 + (d - 48) := by
  unfold digitsVal
  rw [List.foldl_append]
  rfl

/-- With sufficient fuel, the digit writer produces a non-empty all-digit list
whose value is the input. -/
theorem natDigitsF_spec : ∀ (f n : Nat), n < f →
    (natDigitsF f n).all isDigit = true ∧ natDigitsF f n ≠ [] ∧
      digitsVal (natDigitsF f n) = n := by
  intro f
  induction f with
  | zero => intro n h; omega
  | succ f ih =>
    intro n h
    by_cases h10 : n < 10
    · rw [natDigitsF, if_pos h10]
      refine ⟨?_, by simp, ?_⟩
      · simp [isDigit]
        omega
      · simp [digitsVal]
    · have hn0 : 0 < n := by omega
      have hdiv : n / 10 < n := Nat.div_lt_self hn0 (by omega)
      have hdivf : n / 10 < f := by omega
      obtain ⟨ha, hne, hval⟩ := ih (n / 10) hdivf
      rw [natDigitsF, if_neg h10]
      refine ⟨?_, by simp, ?_⟩
      · rw [List.all_append, ha]
        simp [isDigit]
        omega
      · rw [digitsVal_append_digit, hval]
        omega

/-- The canonical digits of a natural number: all digits, non-empty, value-correct. -/
theorem natDigits_spec (n : Nat) :
    (natDigits n).all isDigit = true ∧ natDigits n ≠ [] ∧ digitsVal (natDigits n) = n :=
  natDigitsF_spec (n + 1) n (by omega)

/-- Canonical digits contain no carriage return. -/
theorem natDigits_no13 (n : Nat) : 13 ∉ natDigits n := by
  intro hm
  have h := (natDigits_spec n).1
  rw [List.all_eq_true] at h
  have := h 13 hm
  simp [isDigit] at this

/-- Canonical digits are ASCII, hence valid UTF-8. -/
theorem natDigits_ascii (n : Nat) : isValidUTF8 (natDigits n) = true := by
  apply isValidUTF8_ascii
  intro b hb
  have h := (natDigits_spec n).1
  rw [List.all_eq_true] at h
  have := h b hb
  simp [isDigit] at this
  omega

/-- The i64 parser reads back the canonical digits of an in-range natural. -/
theorem parseI64_natDigits {n : Nat} (h : n < 2 ^ 63) :
    parseI64 (natDigits n) = some (n : Int) := by
  obtain ⟨hall, hne, hval⟩ := natDigits_spec n
  cases hD : natDigits n with
  | nil => exact absurd hD hne
  | cons b rest =>
    rw [hD] at hall hval
    have hb : isDigit b = true := by
      rw [List.all_eq_true] at hall
      exact hall b (by simp)
    have hb48 : 48 ≤ b ∧ b ≤ 57 := by simpa [isDigit] using hb
    rw [parseI64]
    rw [if_neg (by omega), if_neg (by omega)]
    unfold parseDigitsBounded
    rw [if_neg (by simp), if_pos hall]
    simp only [hval]
    rw [if_pos (by omega)]

/-- The i64 parser reads back the canonical signed digits of any i64 value. -/
theorem parseI64_intDigits {z : Int} (hlo : -(2 ^ 63) ≤ z) (hhi : z < 2 ^ 63) :
    parseI64 (intDigits z) = some z := by
  unfold intDigits
  by_cases hz : z < 0
  · rw [if_pos hz]
    have hm : ((-z).toNat : Int) = -z := Int.toNat_of_nonneg (by omega)
    obtain ⟨hall, hne, hval⟩ := natDigits_spec (-z).toNat
    rw [parseI64]
    rw [if_neg (by omega), if_pos rfl]
    unfold parseDigitsBounded
    rw [if_neg (by simpa using hne), if_pos hall]
    simp only [hval]
    rw [if_pos (by omega)]
    show some (-(((-z).toNat : Nat) : Int)) = some z
    rw [Int.toNat_of_nonneg (by omega : (0 : Int) ≤ -z), neg_neg]
  · rw [if_neg hz]
    have hzn : ((z.toNat : Nat) : Int) = z := Int.toNat_of_nonneg (by omega)
    have : z.toNat < 2 ^ 63 := by omega
    rw [parseI64_natDigits this, hzn]

/-- The signed digits of an integer contain no carriage return. -/
theorem intDigits_no13 (z : Int) : 13 ∉ intDigits z := by
  unfold intDigits
  by_cases hz : z < 0
  · rw [if_pos hz]
    intro hm
    rcases List.mem_cons.mp hm with h | h
    · omega
    · exact natDigits_no13 _ h
  · rw [if_neg hz]
    exact natDigits_no13 _

/-- The signed digits of an integer are valid UTF-8. -/
theorem intDigits_ascii (z : Int) : isValidUTF8 (intDigits z) = true := by
  unfold intDigits
  by_cases hz : z < 0
  · rw [if_pos hz]
    apply isValidUTF8_ascii
    intro b hb
    rcases List.mem_cons.mp hb with h | h
    · omega
    · have hall := (natDigits_spec (-z).toNat).1
      rw [List.all_eq_true] at hall
      have := hall b h
      simp [isDigit] at this
      omega
  · rw [if_neg hz]
    exact natDigits_ascii _

/-- Every encoding is non-empty. -/
theorem encode_length_pos (v : RESPType) : 0 < (encode v).length := by
  cases v with
  | Str s => simp [encode]
  | Error s => simp [encode]
  | Integer n => simp [encode]
  | BulkStr o => cases o <;> simp [encode]
  | Arr o => cases o <;> simp [encode]

/-- Wrapping cast to usize is the identity on in-range naturals. -/
theorem usize_natCast {n : Nat} (h : n < 2 ^ 64) : usize (n : Int) = n := by
  unfold usize
  omega

/-- Every value's height is positive. -/
theorem height_pos (v : RESPType) : 0 < height v := by
  cases v with
  | Str s => simp [height]
  | Error s => simp [height]
  | Integer n => simp [height]
  | BulkStr o => cases o <;> simp [height]
  | Arr o => cases o <;> simp [height]

/-- `parse_str` succeeds on an encoded simple string. -/
theorem parse_str_enc {s t : List Nat} (hs13 : 13 ∉ s) (hsv : isValidUTF8 s = true) :
    parse_str (43 :: (s ++ 13 :: 10 :: t)) = some (.Str s, t) := by
  unfold parse_str
  simp only [ps_intro hs13 hsv]

/-- `parse_err` succeeds on an encoded error string. -/
theorem parse_err_enc {s t : List Nat} (hs13 : 13 ∉ s) (hsv : isValidUTF8 s = true) :
    parse_err (45 :: (s ++ 13 :: 10 :: t)) = some (.Error s, t) := by
  unfold parse_err
  simp only [ps_intro hs13 hsv]

/-- `parse_integer` succeeds on the canonical encoding of an in-range integer. -/
theorem parse_integer_enc {n : Int} {t : List Nat} (hlo : -(2 ^ 63) ≤ n) (hhi : n < 2 ^ 63) :
    parse_integer (58 :: (intDigits n ++ 13 :: 10 :: t)) = some (.Integer n, t) := by
  unfold parse_integer
  simp only [pi_intro (intDigits_no13 n) (intDigits_ascii n) (parseI64_intDigits hlo hhi)]

/-- `parse_bulk_str` decodes the null bulk string encoding. -/
theorem parse_bulk_null {t : List Nat} :
    parse_bulk_str (36 :: 45 :: 49 :: 13 :: 10 :: t) = some (.BulkStr none, t) := by
  unfold parse_bulk_str
  have hpi : pi 36 (36 :: 45 :: 49 :: 13 :: 10 :: t) = some (-1, t) := by
    have h := @pi_intro 36 [45, 49] t (-1) (by decide) (by decide) (by decide)
    simpa using h
  simp only [hpi, if_pos]

/-- `parse_bulk_str` decodes the encoding of a present bulk string. -/
theorem parse_bulk_enc {b t : List Nat} (hlen : b.length < 2 ^ 63) :
    parse_bulk_str (36 :: (natDigits b.length ++ 13 :: 10 :: (b ++ 13 :: 10 :: t))) =
      some (.BulkStr (some b), t) := by
  unfold parse_bulk_str
  have hpi := @pi_intro 36 (natDigits b.length) (b ++ 13 :: 10 :: t) ((b.length : Int))
    (natDigits_no13 _) (natDigits_ascii _) (parseI64_natDigits hlen)
  simp only [hpi]
  rw [if_neg (by omega)]
  rw [usize_natCast (by omega)]
  simp only [takeExact_append, crlfP]

/-- `parse_arr` decodes the null array encoding. -/
theorem parse_arr_null {p : List Nat → Option (RESPType × List Nat)} {t : List Nat} :
    parse_arr p (42 :: 45 :: 49 :: 13 :: 10 :: t) = some (.Arr none, t) := by
  unfold parse_arr
  have hpi : pi 42 (42 :: 45 :: 49 :: 13 :: 10 :: t) = some (-1, t) := by
    have h := @pi_intro 42 [45, 49] t (-1) (by decide) (by decide) (by decide)
    simpa using h
  simp only [hpi, if_pos]

mutual
/-- Round-trip, value side: with fuel at least the value's height, the parser
decodes a well-formed value's encoding back to the value with the trailing
bytes untouched. -/
theorem parse_encode (v : RESPType) (hv : wfRESP v = true) (f : Nat) (t : List Nat)
    (hf : height v ≤ f) : parseRawF f (encode v ++ t) = some (v, t) := by
  cases f with
  | zero =>
    have := height_pos v
    omega
  | succ f =>
    cases v with
    | Str s =>
      simp only [wfRESP, Bool.and_eq_true, Bool.not_eq_true'] at hv
      have hs13 : 13 ∉ s := by
        intro hm
        have h2 := hv.2
        simp [hm] at h2
      have he : encode (RESPType.Str s) ++ t = 43 :: (s ++ 13 :: 10 :: t) := by
        simp [encode]
      rw [he, parseRawF]
      simp only [parse_str_enc hs13 hv.1]
    | Error s =>
      simp only [wfRESP, Bool.and_eq_true, Bool.not_eq_true'] at hv
      have hs13 : 13 ∉ s := by
        intro hm
        have h2 := hv.2
        simp [hm] at h2
      have he : encode (RESPType.Error s) ++ t = 45 :: (s ++ 13 :: 10 :: t) := by
        simp [encode]
      rw [he, parseRawF]
      simp only [parse_str_head 45 (by decide), parse_err_enc hs13 hv.1]
    | Integer n =>
      simp only [wfRESP, Bool.and_eq_true, decide_eq_true_eq] at hv
      have he : encode (RESPType.Integer n) ++ t = 58 :: (intDigits n ++ 13 :: 10 :: t) := by
        simp [encode]
      rw [he, parseRawF]
      simp only [parse_str_head 58 (by decide), parse_err_head 58 (by decide),
        parse_integer_enc hv.1 hv.2]
    | BulkStr o =>
      cases o with
      | none =>
        have he : encode (RESPType.BulkStr none) ++ t = 36 :: 45 :: 49 :: 13 :: 10 :: t := by
          simp [encode]
        rw [he, parseRawF]
        simp only [parse_str_head 36 (by decide), parse_err_head 36 (by decide),
          parse_integer_head 36 (by decide), parse_bulk_null]
      | some b =>
        simp only [wfRESP, Bool.and_eq_true, decide_eq_true_eq] at hv
        have he : encode (RESPType.BulkStr (some b)) ++ t =
            36 :: (natDigits b.length ++ 13 :: 10 :: (b ++ 13 :: 10 :: t)) := by
          simp [encode]
        rw [he, parseRawF]
        simp only [parse_str_head 36 (by decide), parse_err_head 36 (by decide),
          parse_integer_head 36 (by decide), parse_bulk_enc hv.2]
    | Arr o =>
      cases o with
      | none =>
        have he : encode (RESPType.Arr none) ++ t = 42 :: 45 :: 49 :: 13 :: 10 :: t := by
          simp [encode]
        rw [he, parseRawF]
        simp only [parse_str_head 42 (by decide), parse_err_head 42 (by decide),
          parse_integer_head 42 (by decide), parse_bulk_str_head 42 (by decide), parse_arr_null]
      | some l =>
        simp only [wfRESP, Bool.and_eq_true, decide_eq_true_eq] at hv
        obtain ⟨hlen, hwl⟩ := hv
        have hhl : heightList l ≤ f := by
          have hh : height (RESPType.Arr (some l)) = heightList l + 1 := by simp [height]
          omega
        have he : encode (RESPType.Arr (some l)) ++ t =
            42 :: (natDigits l.length ++ 13 :: 10 :: (encodeList l ++ t)) := by
          simp [encode]
        rw [he, parseRawF]
        simp only [parse_str_head 42 (by decide), parse_err_head 42 (by decide),
          parse_integer_head 42 (by decide), parse_bulk_str_head 42 (by decide)]
        unfold parse_arr
        have hpi := @pi_intro 42 (natDigits l.length) (encodeList l ++ t) ((l.length : Int))
          (natDigits_no13 _) (natDigits_ascii _) (parseI64_natDigits hlen)
        simp only [hpi]
        rw [if_neg (by omega)]
        rw [usize_natCast (by omega)]
        simp only [manyJoin l hwl f t hhl]
termination_by sizeOf v

/-- Round-trip, list side: with fuel at least the list's height, `many_m_n`
decodes the concatenated encodings back to the element list. -/
theorem manyJoin (l : List RESPType) (hl : wfList l = true) (f : Nat) (t : List Nat)
    (hf : heightList l ≤ f) :
    manyExactP (parseRawF f) l.length (encodeList l ++ t) = some (l, t) := by
  cases l with
  | nil => simp [encodeList, manyExactP]
  | cons v vs =>
    simp only [wfList, Bool.and_eq_true] at hl
    obtain ⟨hv, hvs⟩ := hl
    have hmax : heightList (v :: vs) = max (height v) (heightList vs) := by simp [heightList]
    have hhv : height v ≤ f := by omega
    have hhvs : heightList vs ≤ f := by omega
    have he : encodeList (v :: vs) ++ t = encode v ++ (encodeList vs ++ t) := by
      simp [encodeList]
    rw [he]
    rw [show (v :: vs).length = vs.length + 1 from rfl, manyExactP]
    simp only [parse_encode v hv f (encodeList vs ++ t) hhv]
    rw [if_neg (by
      simp only [List.length_append]
      have := encode_length_pos v
      omega)]
    simp only [manyJoin vs hvs f t hhvs]
termination_by sizeOf l
end

mutual
/-- A value's height is at most the length of its encoding. -/
theorem height_le_encode (v : RESPType) : height v ≤ (encode v).length := by
  cases v with
  | Str s => simp [height, encode]
  | Error s => simp [height, encode]
  | Integer n => simp [height, encode]
  | BulkStr o => cases o <;> simp [height, encode]
  | Arr o =>
    cases o with
    | none => simp [height, encode]
    | some l =>
      have h := heightList_le_encodeList l
      simp only [height, encode, List.length_cons, List.length_append]
      omega
termination_by sizeOf v

/-- A list's height is at most the length of its concatenated encodings. -/
theorem heightList_le_encodeList (l : List RESPType) :
    heightList l ≤ (encodeList l).length := by
  cases l with
  | nil => simp [heightList, encodeList]
  | cons v vs =>
    have h1 := height_le_encode v
    have h2 := heightList_le_encodeList vs
    simp only [heightList, encodeList, List.length_append]
    omega
termination_by sizeOf l
end

/-- C1: for every wire value whose section-6 encoding is well-formed (simple and
error text free of carriage return and valid UTF-8, bulk lengths and array
counts matching and representable, integers in i64 range), `parse_raw` decodes
that encoding to exactly the value with an empty remainder. -/
theorem claim_C1_roundtrip (v : RESPType) (hv : wfRESP v = true) :
    parse_raw (encode v) = some (v, []) := by
  unfold parse_raw
  have h1 : height v ≤ (encode v).length := height_le_encode v
  have h2 := parse_encode v hv (encode v).length [] h1
  rw [List.append_nil] at h2
  exact h2

/-- Witness for C1 at a concrete nested value. -/
theorem claim_C1_roundtrip_witness :
    wfRESP (RESPType.Arr (some [RESPType.Integer (-5), RESPType.Str [111, 107],
        RESPType.BulkStr (some [255, 0]), RESPType.BulkStr none])) = true ∧
    parse_raw (encode (RESPType.Arr (some [RESPType.Integer (-5), RESPType.Str [111, 107],
        RESPType.BulkStr (some [255, 0]), RESPType.BulkStr none]))) =
      some (RESPType.Arr (some [RESPType.Integer (-5), RESPType.Str [111, 107],
        RESPType.BulkStr (some [255, 0]), RESPType.BulkStr none]), []) :=
  ⟨by decide, claim_C1_roundtrip _ (by decide)⟩

/-- The remainder of a successful `ps` is a suffix of the input. -/
theorem ps_suffix {c : Nat} {i s r : List Nat} (h : ps c i = some (s, r)) :
    List.IsSuffix r i := by
  obtain ⟨hi, -, -⟩ := ps_some h
  exact ⟨c :: (s ++ [13, 10]), by simp [hi]⟩

/-- The remainder of a successful `pi` is a suffix of the input. -/
theorem pi_suffix {c : Nat} {i : List Nat} {n : Int} {r : List Nat}
    (h : pi c i = some (n, r)) : List.IsSuffix r i := by
  obtain ⟨s, hi, -, -, -⟩ := pi_some h
  exact ⟨c :: (s ++ [13, 10]), by simp [hi]⟩

/-- Inversion for `parse_str`. -/
theorem parse_str_some {i : List Nat} {v : RESPType} {r : List Nat}
    (h : parse_str i = some (v, r)) : ∃ s, v = RESPType.Str s ∧ ps 43 i = some (s, r) := by
  unfold parse_str at h
  cases hps : ps 43 i with
  | none => simp [hps] at h
  | some pr =>
    obtain ⟨s, r1⟩ := pr
    simp only [hps, Option.some.injEq, Prod.mk.injEq] at h
    exact ⟨s, h.1.symm, by rw [← h.2]⟩

/-- Inversion for `parse_err`. -/
theorem parse_err_some {i : List Nat} {v : RESPType} {r : List Nat}
    (h : parse_err i = some (v, r)) : ∃ s, v = RESPType.Error s ∧ ps 45 i = some (s, r) := by
  unfold parse_err at h
  cases hps : ps 45 i with
  | none => simp [hps] at h
  | some pr =>
    obtain ⟨s, r1⟩ := pr
    simp only [hps, Option.some.injEq, Prod.mk.injEq] at h
    exact ⟨s, h.1.symm, by rw [← h.2]⟩

/-- Inversion for `parse_integer`. -/
theorem parse_integer_some {i : List Nat} {v : RESPType} {r : List Nat}
    (h : parse_integer i = some (v, r)) :
    ∃ n, v = RESPType.Integer n ∧ pi 58 i = some (n, r) := by
  unfold parse_integer at h
  cases hpi : pi 58 i with
  | none => simp [hpi] at h
  | some pr =>
    obtain ⟨n, r1⟩ := pr
    simp only [hpi, Option.some.injEq, Prod.mk.injEq] at h
    exact ⟨n, h.1.symm, by rw [← h.2]⟩

/-- Inversion for `parse_bulk_str`: either the null sentinel or an exact-length
payload followed by CR LF. -/
theorem parse_bulk_str_some {i : List Nat} {v : RESPType} {r : List Nat}
    (h : parse_bulk_str i = some (v, r)) :
    (v = RESPType.BulkStr none ∧ pi 36 i = some (-1, r)) ∨
      (∃ len rest b, pi 36 i = some (len, rest) ∧ len ≠ -1 ∧
        v = RESPType.BulkStr (some b) ∧ b.length = usize len ∧
        rest = b ++ 13 :: 10 :: r) := by
  unfold parse_bulk_str at h
  cases hpi : pi 36 i with
  | none => simp [hpi] at h
  | some pr =>
    obtain ⟨len, rest⟩ := pr
    simp only [hpi] at h
    by_cases hneg : len = -1
    · rw [if_pos hneg] at h
      simp only [Option.some.injEq, Prod.mk.injEq] at h
      refine Or.inl ⟨h.1.symm, ?_⟩
      rw [← h.2, ← hneg]
    · rw [if_neg hneg] at h
      cases hte : takeExact (usize len) rest with
      | none => simp [hte] at h
      | some pr2 =>
        obtain ⟨b, r2⟩ := pr2
        simp only [hte] at h
        cases hcr : crlfP r2 with
        | none => simp [hcr] at h
        | some r3 =>
          simp only [hcr, Option.some.injEq, Prod.mk.injEq] at h
          obtain ⟨hb, hr⟩ := h
          obtain ⟨hsplit, hblen⟩ := takeExact_some hte
          refine Or.inr ⟨len, rest, b, rfl, hneg, hb.symm, hblen, ?_⟩
          rw [hsplit, crlfP_some hcr, hr]

/-- The remainder of a successful `parse_bulk_str` is a suffix of the input. -/
theorem parse_bulk_str_suffix {i : List Nat} {v : RESPType} {r : List Nat}
    (h : parse_bulk_str i = some (v, r)) : List.IsSuffix r i := by
  rcases parse_bulk_str_some h with ⟨-, hpi⟩ | ⟨len, rest, b, hpi, -, -, -, hrest⟩
  · exact pi_suffix hpi
  · have h1 : List.IsSuffix r rest := ⟨b ++ [13, 10], by simp [hrest]⟩
    exact h1.trans (pi_suffix hpi)

/-- With an element parser whose remainders are suffixes, `many_m_n` remainders
are suffixes too. -/
theorem manyExactP_suffix {p : List Nat → Option (RESPType × List Nat)}
    (hp : ∀ i v r, p i = some (v, r) → List.IsSuffix r i) :
    ∀ (m : Nat) (i : List Nat) (vs : List RESPType) (r : List Nat),
      manyExactP p m i = some (vs, r) → List.IsSuffix r i := by
  intro m
  induction m with
  | zero =>
    intro i vs r h
    rw [manyExactP] at h
    simp only [Option.some.injEq, Prod.mk.injEq] at h
    rw [← h.2]
  | succ m ih =>
    intro i vs r h
    rw [manyExactP] at h
    cases hp1 : p i with
    | none => simp [hp1] at h
    | some pr =>
      obtain ⟨v, rest⟩ := pr
      simp only [hp1] at h
      by_cases hlen : rest.length = i.length
      · rw [if_pos hlen] at h
        simp at h
      · rw [if_neg hlen] at h
        cases hm : manyExactP p m rest with
        | none => simp [hm] at h
        | some pr2 =>
          obtain ⟨vs2, r2⟩ := pr2
          simp only [hm, Option.some.injEq, Prod.mk.injEq] at h
          obtain ⟨h1, h2⟩ := h
          subst h2
          exact (ih rest vs2 r2 hm).trans (hp i v rest hp1)

/-- Main suffix property: any successful run of the fuel-indexed parser returns
a remainder that is a suffix of its input. -/
theorem parseRawF_suffix : ∀ (f : Nat) {i : List Nat} {v : RESPType} {r : List Nat},
    parseRawF f i = some (v, r) → List.IsSuffix r i := by
  intro f
  induction f with
  | zero =>
    intro i v r h
    rw [parseRawF] at h
    exact absurd h (by simp)
  | succ f ih =>
    intro i v r h
    rw [parseRawF] at h
    cases h1 : parse_str i with
    | some pr =>
      obtain ⟨v1, r1⟩ := pr
      simp only [h1, Option.some.injEq, Prod.mk.injEq] at h
      obtain ⟨hv1, hr1⟩ := h
      subst hv1
      subst hr1
      obtain ⟨s, -, hps⟩ := parse_str_some h1
      exact ps_suffix hps
    | none =>
      simp only [h1] at h
      cases h2 : parse_err i with
      | some pr =>
        obtain ⟨v1, r1⟩ := pr
        simp only [h2, Option.some.injEq, Prod.mk.injEq] at h
        obtain ⟨hv1, hr1⟩ := h
        subst hv1
        subst hr1
        obtain ⟨s, -, hps⟩ := parse_err_some h2
        exact ps_suffix hps
      | none =>
        simp only [h2] at h
        cases h3 : parse_integer i with
        | some pr =>
          obtain ⟨v1, r1⟩ := pr
          simp only [h3, Option.some.injEq, Prod.mk.injEq] at h
          obtain ⟨hv1, hr1⟩ := h
          subst hv1
          subst hr1
          obtain ⟨n, -, hpi⟩ := parse_integer_some h3
          exact pi_suffix hpi
        | none =>
          simp only [h3] at h
          cases h4 : parse_bulk_str i with
          | some pr =>
            obtain ⟨v1, r1⟩ := pr
            simp only [h4, Option.some.injEq, Prod.mk.injEq] at h
            obtain ⟨hv1, hr1⟩ := h
            subst hv1
            subst hr1
            exact parse_bulk_str_suffix h4
          | none =>
            simp only [h4] at h
            unfold parse_arr at h
            cases h5 : pi 42 i with
            | none => simp [h5] at h
            | some pr =>
              obtain ⟨len, rest⟩ := pr
              simp only [h5] at h
              by_cases hneg : len = -1
              · rw [if_pos hneg] at h
                simp only [Option.some.injEq, Prod.mk.injEq] at h
                rw [← h.2]
                exact pi_suffix h5
              · rw [if_neg hneg] at h
                cases h6 : manyExactP (parseRawF f) (usize len) rest with
                | none => simp [h6] at h
                | some pr2 =>
                  obtain ⟨vs, r2⟩ := pr2
                  simp only [h6, Option.some.injEq, Prod.mk.injEq] at h
                  obtain ⟨hv1, hr1⟩ := h
                  subst hr1
                  have hs := manyExactP_suffix (fun i2 v2 r3 hh => ih hh)
                    (usize len) rest vs r2 h6
                  exact hs.trans (pi_suffix h5)

/-- C4: whenever `parse_raw` succeeds, the returned remainder is exactly the
unconsumed suffix of the input, byte for byte; in particular decoding the bytes
of the text plus-f-o-o CR LF t-t returns the simple string f-o-o with remainder
t-t. -/
theorem claim_C4_remainder :
    (∀ (i : List Nat) (v : RESPType) (rest : List Nat),
        parse_raw i = some (v, rest) → List.IsSuffix rest i) ∧
    parse_raw [43, 102, 111, 111, 13, 10, 116, 116] =
      some (RESPType.Str [102, 111, 111], [116, 116]) :=
  ⟨fun i _ _ h => parseRawF_suffix i.length h, rfl⟩

/-- Witness for C4: the remainder of the concrete example is a genuine suffix. -/
theorem claim_C4_remainder_witness :
    List.IsSuffix [116, 116] [43, 102, 111, 111, 13, 10, 116, 116] :=
  claim_C4_remainder.1 [43, 102, 111, 111, 13, 10, 116, 116]
    (RESPType.Str [102, 111, 111]) [116, 116] rfl

/-- With an element parser producing CR-free values, `many_m_n` produces a
CR-free list. -/
theorem manyExactP_noCR {p : List Nat → Option (RESPType × List Nat)}
    (hp : ∀ i v r, p i = some (v, r) → noCR v = true) :
    ∀ (m : Nat) (i : List Nat) (vs : List RESPType) (r : List Nat),
      manyExactP p m i = some (vs, r) → noCRList vs = true := by
  intro m
  induction m with
  | zero =>
    intro i vs r h
    rw [manyExactP] at h
    simp only [Option.some.injEq, Prod.mk.injEq] at h
    rw [← h.1]
    rfl
  | succ m ih =>
    intro i vs r h
    rw [manyExactP] at h
    cases hp1 : p i with
    | none => simp [hp1] at h
    | some pr =>
      obtain ⟨v, rest⟩ := pr
      simp only [hp1] at h
      by_cases hlen : rest.length = i.length
      · rw [if_pos hlen] at h
        simp at h
      · rw [if_neg hlen] at h
        cases hm2 : manyExactP p m rest with
        | none => simp [hm2] at h
        | some pr2 =>
          obtain ⟨vs2, r2⟩ := pr2
          simp only [hm2, Option.some.injEq, Prod.mk.injEq] at h
          obtain ⟨h1, h2⟩ := h
          rw [← h1]
          simp only [noCRList, Bool.and_eq_true]
          exact ⟨hp i v rest hp1, ih rest vs2 r2 hm2⟩

/-- Every value produced by the fuel-indexed parser is free of carriage returns
in all its simple-string and error-string texts. -/
theorem parseRawF_noCR : ∀ (f : Nat) {i : List Nat} {v : RESPType} {r : List Nat},
    parseRawF f i = some (v, r) → noCR v = true := by
  intro f
  induction f with
  | zero =>
    intro i v r h
    rw [parseRawF] at h
    exact absurd h (by simp)
  | succ f ih =>
    intro i v r h
    rw [parseRawF] at h
    cases h1 : parse_str i with
    | some pr =>
      obtain ⟨v1, r1⟩ := pr
      simp only [h1, Option.some.injEq, Prod.mk.injEq] at h
      obtain ⟨hv1, hr1⟩ := h
      subst hv1
      obtain ⟨s, hvs, hps⟩ := parse_str_some h1
      obtain ⟨-, hs13, -⟩ := ps_some hps
      rw [hvs]
      simp [noCR, hs13]
    | none =>
      simp only [h1] at h
      cases h2 : parse_err i with
      | some pr =>
        obtain ⟨v1, r1⟩ := pr
        simp only [h2, Option.some.injEq, Prod.mk.injEq] at h
        obtain ⟨hv1, hr1⟩ := h
        subst hv1
        obtain ⟨s, hvs, hps⟩ := parse_err_some h2
        obtain ⟨-, hs13, -⟩ := ps_some hps
        rw [hvs]
        simp [noCR, hs13]
      | none =>
        simp only [h2] at h
        cases h3 : parse_integer i with
        | some pr =>
          obtain ⟨v1, r1⟩ := pr
          simp only [h3, Option.some.injEq, Prod.mk.injEq] at h
          obtain ⟨hv1, hr1⟩ := h
          subst hv1
          obtain ⟨n, hvn, -⟩ := parse_integer_some h3
          rw [hvn]
          rfl
        | none =>
          simp only [h3] at h
          cases h4 : parse_bulk_str i with
          | some pr =>
            obtain ⟨v1, r1⟩ := pr
            simp only [h4, Option.some.injEq, Prod.mk.injEq] at h
            obtain ⟨hv1, hr1⟩ := h
            subst hv1
            rcases parse_bulk_str_some h4 with ⟨hv, -⟩ | ⟨-, -, b, -, -, hv, -, -⟩ <;>
              rw [hv] <;> rfl
          | none =>
            simp only [h4] at h
            unfold parse_arr at h
            cases h5 : pi 42 i with
            | none => simp [h5] at h
            | some pr =>
              obtain ⟨len, rest⟩ := pr
              simp only [h5] at h
              by_cases hneg : len = -1
              · rw [if_pos hneg] at h
                simp only [Option.some.injEq, Prod.mk.injEq] at h
                rw [← h.1]
                rfl
              · rw [if_neg hneg] at h
                cases h6 : manyExactP (parseRawF f) (usize len) rest with
                | none => simp [h6] at h
                | some pr2 =>
                  obtain ⟨vs, r2⟩ := pr2
                  simp only [h6, Option.some.injEq, Prod.mk.injEq] at h
                  obtain ⟨hv1, hr1⟩ := h
                  rw [← hv1]
                  have hl := manyExactP_noCR (fun i2 v2 r3 hh => ih hh)
                    (usize len) rest vs r2 h6
                  simpa [noCR] using hl

/-- C5 counterexample: decoding the bytes of plus, a, line-feed, b, CR, LF
succeeds and yields a simple string whose text contains a line-feed byte, so a
successfully decoded simple string may contain an embedded LF. -/
theorem claim_C5_counterexample :
    parse_raw [43, 97, 10, 98, 13, 10] = some (RESPType.Str [97, 10, 98], []) ∧
      10 ∈ [97, 10, 98] := ⟨rfl, by decide⟩

/-- C5 amended: every simple string and error string produced by a successful
decode is free of carriage returns (line-feeds can occur, see the
counterexample). -/
theorem claim_C5_noCR (i : List Nat) (v : RESPType) (rest : List Nat)
    (h : parse_raw i = some (v, rest)) : noCR v = true :=
  parseRawF_noCR i.length h

/-- Witness for the amended C5 at a concrete decode. -/
theorem claim_C5_noCR_witness : noCR (RESPType.Str [102, 111, 111]) = true :=
  claim_C5_noCR [43, 102, 111, 111, 13, 10] (RESPType.Str [102, 111, 111]) [] rfl

/-- A successful bounded digit parse yields a value within the bound. -/
theorem parseDigitsBounded_le {d : List Nat} {bound m : Nat}
    (h : parseDigitsBounded d bound = some m) : m ≤ bound := by
  unfold parseDigitsBounded at h
  split at h
  · simp at h
  · split at h
    · split at h
      · simp only [Option.some.injEq] at h
        omega
      · simp at h
    · simp at h

/-- Every value accepted by the i64 parser lies in the i64 range. -/
theorem parseI64_range : ∀ {s : List Nat} {n : Int}, parseI64 s = some n →
    -(2 ^ 63) ≤ n ∧ n < 2 ^ 63 := by
  intro s n h
  cases s with
  | nil => simp [parseI64] at h
  | cons b rest =>
    rw [parseI64] at h
    by_cases h43 : b = 43
    · rw [if_pos h43] at h
      cases hd : parseDigitsBounded rest (2 ^ 63 - 1) with
      | none =>
        rw [hd] at h
        exact absurd h (by simp)
      | some m =>
        have hm := parseDigitsBounded_le hd
        rw [hd] at h
        simp only [Option.some.injEq] at h
        omega
    · rw [if_neg h43] at h
      by_cases h45 : b = 45
      · rw [if_pos h45] at h
        cases hd : parseDigitsBounded rest (2 ^ 63) with
        | none =>
          rw [hd] at h
          exact absurd h (by simp)
        | some m =>
          have hm := parseDigitsBounded_le hd
          rw [hd] at h
          simp only [Option.some.injEq] at h
          omega
      · rw [if_neg h45] at h
        cases hd : parseDigitsBounded (b :: rest) (2 ^ 63 - 1) with
        | none =>
          rw [hd] at h
          exact absurd h (by simp)
        | some m =>
          have hm := parseDigitsBounded_le hd
          rw [hd] at h
          simp only [Option.some.injEq] at h
          omega

/-- The usize cast of an in-range negative i64 is at least 2^63. -/
theorem usize_neg {z : Int} (hlo : -(2 ^ 63) ≤ z) (hz : z < 0) : 2 ^ 63 ≤ usize z := by
  unfold usize
  omega

/-- The usize cast of an in-range non-negative integer is its toNat. -/
theorem usize_toNat {z : Int} (h0 : 0 ≤ z) (h1 : z < 2 ^ 64) : usize z = z.toNat := by
  unfold usize
  omega

/-- With a length-non-increasing element parser, a successful `many_m_n` run
requires at least as many input bytes as repetitions (the loop guard forces
strict consumption at each step). -/
theorem manyExactP_count_le {p : List Nat → Option (RESPType × List Nat)}
    (hp : ∀ i v r, p i = some (v, r) → r.length ≤ i.length) :
    ∀ (m : Nat) (i : List Nat) (vs : List RESPType) (r : List Nat),
      manyExactP p m i = some (vs, r) → m ≤ i.length := by
  intro m
  induction m with
  | zero => intro i vs r _; omega
  | succ m ih =>
    intro i vs r h
    rw [manyExactP] at h
    cases hp1 : p i with
    | none => simp [hp1] at h
    | some pr =>
      obtain ⟨v, rest⟩ := pr
      simp only [hp1] at h
      by_cases hlen : rest.length = i.length
      · rw [if_pos hlen] at h
        simp at h
      · rw [if_neg hlen] at h
        cases hm2 : manyExactP p m rest with
        | none => simp [hm2] at h
        | some pr2 =>
          obtain ⟨vs2, r2⟩ := pr2
          have h1 := ih rest vs2 r2 hm2
          have h2 := hp i v rest hp1
          omega

/-- `many_m_n` fails whenever more repetitions are demanded than there are
input bytes. -/
theorem manyExactP_short {p : List Nat → Option (RESPType × List Nat)}
    (hp : ∀ i v r, p i = some (v, r) → r.length ≤ i.length)
    (m : Nat) (i : List Nat) (h : i.length < m) : manyExactP p m i = none := by
  cases hm : manyExactP p m i with
  | none => rfl
  | some pr =>
    obtain ⟨vs, r⟩ := pr
    have := manyExactP_count_le hp m i vs r hm
    omega

/-- A dollar-prefixed value whose declared byte count exceeds the remaining
buffer fails to decode. -/
theorem bulk_fail {i : List Nat} {len : Int} {rest : List Nat}
    (hpi : pi 36 i = some (len, rest)) (hneg : len ≠ -1)
    (hlen : rest.length < usize len) : parse_raw i = none := by
  obtain ⟨s, hi, -, -, -⟩ := pi_some hpi
  have hbulk : parse_bulk_str i = none := by
    unfold parse_bulk_str
    simp only [hpi]
    rw [if_neg hneg, takeExact_short hlen]
  rw [hi] at hbulk
  unfold parse_raw
  cases hL : i.length with
  | zero => rfl
  | succ F =>
    rw [parseRawF, hi]
    simp only [parse_str_head 36 (by decide), parse_err_head 36 (by decide),
      parse_integer_head 36 (by decide), hbulk]
    exact parse_arr_head 36 (by decide)

/-- An asterisk-prefixed value whose declared element count exceeds the number
of remaining bytes fails to decode. -/
theorem arr_fail {i : List Nat} {len : Int} {rest : List Nat}
    (hpi : pi 42 i = some (len, rest)) (hneg : len ≠ -1)
    (hlen : rest.length < usize len) : parse_raw i = none := by
  obtain ⟨s, hi, -, -, -⟩ := pi_some hpi
  rw [hi] at hpi
  unfold parse_raw
  cases hL : i.length with
  | zero => rfl
  | succ F =>
    rw [parseRawF, hi]
    simp only [parse_str_head 42 (by decide), parse_err_head 42 (by decide),
      parse_integer_head 42 (by decide), parse_bulk_str_head 42 (by decide)]
    unfold parse_arr
    simp only [hpi]
    rw [if_neg hneg]
    rw [manyExactP_short (fun i2 v2 r2 hh => (parseRawF_suffix F hh).length_le)
      (usize len) rest hlen]

/-- C6: the scalar conversion maps Integer to Num, present BulkStr to BSStr with
bytes preserved and no UTF-8 requirement, Str to Str; it fails NullStr exactly
on the null bulk string and WrongValueType exactly on error strings and arrays. -/
theorem claim_C6_value_conversion :
    (∀ n : Int, Value.tryFrom (RESPType.Integer n) = .ok (.Num n)) ∧
    (∀ b : List Nat, Value.tryFrom (RESPType.BulkStr (some b)) = .ok (.BSStr b)) ∧
    (∀ s : List Nat, Value.tryFrom (RESPType.Str s) = .ok (.Str s)) ∧
    Value.tryFrom (RESPType.BulkStr none) = .error (.cmd .NullStr) ∧
    (∀ s : List Nat, Value.tryFrom (RESPType.Error s) = .error (.cmd .WrongValueType)) ∧
    (∀ o, Value.tryFrom (RESPType.Arr o) = .error (.cmd .WrongValueType)) ∧
    (∀ v, Value.tryFrom v = .error (.cmd .NullStr) → v = RESPType.BulkStr none) ∧
    (∀ v, Value.tryFrom v = .error (.cmd .WrongValueType) →
      (∃ s, v = RESPType.Error s) ∨ ∃ o, v = RESPType.Arr o) := by
  refine ⟨fun n => rfl, fun b => rfl, fun s => rfl, rfl, fun s => rfl, fun o => rfl, ?_, ?_⟩
  · intro v h
    cases v with
    | Str s => simp [Value.tryFrom] at h
    | Error s => simp [Value.tryFrom] at h
    | Integer n => simp [Value.tryFrom] at h
    | BulkStr o =>
      cases o with
      | none => rfl
      | some b => simp [Value.tryFrom] at h
    | Arr o => simp [Value.tryFrom] at h
  · intro v h
    cases v with
    | Str s => simp [Value.tryFrom] at h
    | Error s => exact Or.inl ⟨s, rfl⟩
    | Integer n => simp [Value.tryFrom] at h
    | BulkStr o => cases o <;> simp [Value.tryFrom] at h
    | Arr o => exact Or.inr ⟨o, rfl⟩

/-- Witness for C6's exactness directions at concrete inputs. -/
theorem claim_C6_value_conversion_witness :
    RESPType.BulkStr none = RESPType.BulkStr none ∧
      ((∃ s, RESPType.Error [119] = RESPType.Error s) ∨
        ∃ o, RESPType.Error [119] = RESPType.Arr o) :=
  ⟨claim_C6_value_conversion.2.2.2.2.2.2.1 (RESPType.BulkStr none) rfl,
    claim_C6_value_conversion.2.2.2.2.2.2.2 (RESPType.Error [119]) rfl⟩

/-- C7: the non-empty-array accessor succeeds exactly on present non-empty
arrays, returning the elements in order; a present empty array fails EmptyArr,
and a null array or any non-array variant fails NotArr. -/
theorem claim_C7_to_arr :
    (∀ (x : RESPType) (xs : List RESPType),
        RESPType.to_arr (RESPType.Arr (some (x :: xs))) = .ok (x :: xs)) ∧
    RESPType.to_arr (RESPType.Arr (some [])) = .error (.conv .EmptyArr) ∧
    RESPType.to_arr (RESPType.Arr none) = .error (.conv .NotArr) ∧
    (∀ s, RESPType.to_arr (RESPType.Str s) = .error (.conv .NotArr)) ∧
    (∀ s, RESPType.to_arr (RESPType.Error s) = .error (.conv .NotArr)) ∧
    (∀ n, RESPType.to_arr (RESPType.Integer n) = .error (.conv .NotArr)) ∧
    (∀ o, RESPType.to_arr (RESPType.BulkStr o) = .error (.conv .NotArr)) ∧
    (∀ v vs, RESPType.to_arr v = .ok vs → v = RESPType.Arr (some vs) ∧ vs ≠ []) := by
  refine ⟨fun x xs => rfl, rfl, rfl, fun s => rfl, fun s => rfl, fun n => rfl,
    fun o => rfl, ?_⟩
  intro v vs h
  cases v with
  | Str s => simp [RESPType.to_arr] at h
  | Error s => simp [RESPType.to_arr] at h
  | Integer n => simp [RESPType.to_arr] at h
  | BulkStr o => simp [RESPType.to_arr] at h
  | Arr o =>
    cases o with
    | none => simp [RESPType.to_arr] at h
    | some arr =>
      cases arr with
      | nil => simp [RESPType.to_arr] at h
      | cons x xs =>
        simp [RESPType.to_arr] at h
        rw [h]
        exact ⟨rfl, by simp [← h]⟩

/-- Witness for C7's exactness direction at a concrete input. -/
theorem claim_C7_to_arr_witness :
    RESPType.Arr (some [RESPType.Integer 7]) =
      RESPType.Arr (some [RESPType.Integer 7]) ∧ [RESPType.Integer 7] ≠ [] :=
  claim_C7_to_arr.2.2.2.2.2.2.2 (RESPType.Arr (some [RESPType.Integer 7]))
    [RESPType.Integer 7] rfl

/-- C8: the null bulk string and the empty bulk string decode from distinct
wire forms and are unequal values. -/
theorem claim_C8_null_distinction :
    parse_raw [36, 45, 49, 13, 10] = some (RESPType.BulkStr none, []) ∧
    parse_raw [36, 48, 13, 10, 13, 10] = some (RESPType.BulkStr (some []), []) ∧
    RESPType.BulkStr none ≠ RESPType.BulkStr (some []) := by
  refine ⟨rfl, rfl, ?_⟩
  intro h
  simp at h

/-- C9: dispatch on a non-empty array whose first element's text is none of the
six lower-case command literals fails with UnknownCommand carrying that text;
in particular the one-element array holding the text f-o-o fails with
UnknownCommand f-o-o. -/
theorem claim_C9_unknown_command :
    (∀ (head : RESPType) (tail : List RESPType) (name : List Nat),
        head.get_string = .ok name →
        name ≠ [115, 101, 116] → name ≠ [103, 101, 116] →
        name ≠ [103, 101, 116, 115, 101, 116] → name ≠ [115, 116, 114, 108, 101, 110] →
        name ≠ [101, 120, 105, 115, 116, 115] → name ≠ [100, 101, 108] →
        RedisCommands.tryFrom (RESPType.Arr (some (head :: tail))) =
          .error (.cmd (.UnknownCommand name))) ∧
    RedisCommands.tryFrom (RESPType.Arr (some [RESPType.Str [102, 111, 111]])) =
      .error (.cmd (.UnknownCommand [102, 111, 111])) := by
  refine ⟨?_, rfl⟩
  intro head tail name hgs h1 h2 h3 h4 h5 h6
  unfold RedisCommands.tryFrom
  have hta : RESPType.to_arr (RESPType.Arr (some (head :: tail))) = .ok (head :: tail) := rfl
  simp only [hta, hgs]
  rw [if_neg h1, if_neg h2, if_neg h3, if_neg h4, if_neg h5, if_neg h6]

/-- Witness for C9 at a concrete unknown command name b-a-r. -/
theorem claim_C9_unknown_command_witness :
    RedisCommands.tryFrom
        (RESPType.Arr (some [RESPType.Str [98, 97, 114], RESPType.Integer 1])) =
      .error (.cmd (.UnknownCommand [98, 97, 114])) :=
  claim_C9_unknown_command.1 (RESPType.Str [98, 97, 114]) [RESPType.Integer 1]
    [98, 97, 114] rfl (by decide) (by decide) (by decide) (by decide) (by decide)
    (by decide)

/-- C10: GETSET reports LackArgs(2, n) for every argument count n other than 2,
and STRLEN and EXISTS report LackArgs(1, n) for every n other than 1 — also
when too many arguments are provided, with the provided count inside the error. -/
theorem claim_C10_arity_errors :
    (∀ v : List RESPType, v.length ≠ 2 →
        GetSet.tryFrom v = .error (.cmd (.LackArgs 2 v.length))) ∧
    (∀ v : List RESPType, v.length ≠ 1 →
        StrLen.tryFrom v = .error (.cmd (.LackArgs 1 v.length))) ∧
    (∀ v : List RESPType, v.length ≠ 1 →
        ExistsCmd.tryFrom v = .error (.cmd (.LackArgs 1 v.length))) := by
  refine ⟨?_, ?_, ?_⟩
  · intro v h
    rcases v with _ | ⟨a, _ | ⟨b, _ | ⟨c, rest⟩⟩⟩
    · rfl
    · rfl
    · exact absurd rfl h
    · rfl
  · intro v h
    rcases v with _ | ⟨a, _ | ⟨b, rest⟩⟩
    · rfl
    · exact absurd rfl h
    · rfl
  · intro v h
    rcases v with _ | ⟨a, _ | ⟨b, rest⟩⟩
    · rfl
    · exact absurd rfl h
    · rfl

/-- Witness for C10 with too many arguments: three for GETSET, two for STRLEN
and EXISTS. -/
theorem claim_C10_arity_errors_witness :
    GetSet.tryFrom [RESPType.Str [97], RESPType.Str [98], RESPType.Str [99]] =
      .error (.cmd (.LackArgs 2 3)) ∧
    StrLen.tryFrom [RESPType.Str [97], RESPType.Str [98]] =
      .error (.cmd (.LackArgs 1 2)) ∧
    ExistsCmd.tryFrom [RESPType.Str [97], RESPType.Str [98]] =
      .error (.cmd (.LackArgs 1 2)) :=
  ⟨claim_C10_arity_errors.1 [RESPType.Str [97], RESPType.Str [98], RESPType.Str [99]]
      (by decide),
    claim_C10_arity_errors.2.1 [RESPType.Str [97], RESPType.Str [98]] (by decide),
    claim_C10_arity_errors.2.2 [RESPType.Str [97], RESPType.Str [98]] (by decide)⟩

/-- Expiry stage, token e-x: consumes the next argument as seconds. -/
theorem parseExpire_ex {b0 b1 : RESPType} {rest : List RESPType} {s : List Nat} {u : Nat}
    (hb0 : b0.get_string = .ok [101, 120]) (hb1 : b1.get_string = .ok s)
    (hu : parseU64 s = some u) :
    parseExpire (b0 :: b1 :: rest) = .ok (some (Duration.from_secs u), rest) := by
  unfold parseExpire
  simp only [hb0, if_true, hb1, hu]

/-- Expiry stage, token p-x: consumes the next argument as milliseconds. -/
theorem parseExpire_px {b0 b1 : RESPType} {rest : List RESPType} {s : List Nat} {u : Nat}
    (hb0 : b0.get_string = .ok [112, 120]) (hb1 : b1.get_string = .ok s)
    (hu : parseU64 s = some u) :
    parseExpire (b0 :: b1 :: rest) = .ok (some (Duration.from_millis u), rest) := by
  unfold parseExpire
  simp only [hb0, if_true, hb1, hu]
  rw [if_neg (by decide)]

/-- Expiry stage, any other text token: consumes nothing and sets no expiry. -/
theorem parseExpire_other {b0 b1 : RESPType} {rest : List RESPType} {w : List Nat}
    (hb0 : b0.get_string = .ok w) (hex : w ≠ [101, 120]) (hpx : w ≠ [112, 120]) :
    parseExpire (b0 :: b1 :: rest) = .ok (none, b0 :: b1 :: rest) := by
  unfold parseExpire
  simp only [hb0]
  rw [if_neg hex, if_neg hpx]

/-- Expiry stage with fewer than two remaining arguments: skipped entirely. -/
theorem parseExpire_short {tail : List RESPType} (h : tail.length < 2) :
    parseExpire tail = .ok (none, tail) := by
  rcases tail with _ | ⟨c, _ | ⟨d, rest⟩⟩
  · rfl
  · rfl
  · exact absurd h (by simp only [List.length_cons]; omega)

/-- Expiry stage: a first token without extractable text propagates its error. -/
theorem parseExpire_err {b0 b1 : RESPType} {rest : List RESPType} {e : RudisErr}
    (hb0 : b0.get_string = .error e) :
    parseExpire (b0 :: b1 :: rest) = .error e := by
  unfold parseExpire
  simp only [hb0]

/-- Existence-mode stage, token n-x. -/
theorem parseSetx_nx {c0 : RESPType} {r : List RESPType}
    (hc0 : c0.get_string = .ok [110, 120]) : parseSetx (c0 :: r) = .ok (some .NX) := by
  unfold parseSetx
  simp only [hc0, if_true]

/-- Existence-mode stage, token x-x. -/
theorem parseSetx_xx {c0 : RESPType} {r : List RESPType}
    (hc0 : c0.get_string = .ok [120, 120]) : parseSetx (c0 :: r) = .ok (some .XX) := by
  unfold parseSetx
  simp only [hc0, if_true]
  rw [if_neg (by decide)]

/-- Existence-mode stage, any other text token: silently ignored. -/
theorem parseSetx_other {c0 : RESPType} {r : List RESPType} {w : List Nat}
    (hc0 : c0.get_string = .ok w) (hnx : w ≠ [110, 120]) (hxx : w ≠ [120, 120]) :
    parseSetx (c0 :: r) = .ok none := by
  unfold parseSetx
  simp only [hc0]
  rw [if_neg hnx, if_neg hxx]

/-- Existence-mode stage: a token without extractable text propagates its error. -/
theorem parseSetx_err {c0 : RESPType} {r : List RESPType} {e : RudisErr}
    (hc0 : c0.get_string = .error e) : parseSetx (c0 :: r) = .error e := by
  unfold parseSetx
  simp only [hc0]

/-- With key and value extracted and the expiry stage evaluated, `SetCmd`
construction reduces to the existence-mode stage on the leftover arguments. -/
theorem setCmd_tryFrom_stages {a0 a1 : RESPType} {key : List Nat} {value : Value}
    {rest : List RESPType} {exp : Option Duration} {rest2 : List RESPType}
    (hk : a0.get_string = .ok key) (hv : Value.tryFrom a1 = .ok value)
    (he : parseExpire rest = .ok (exp, rest2)) :
    SetCmd.tryFrom (a0 :: a1 :: rest) =
      (parseSetx rest2).map (fun sx => ⟨key, value, exp, sx⟩) := by
  unfold SetCmd.tryFrom
  simp only [hk, hv, he]
  cases hsx : parseSetx rest2 <;> simp [Except.map]

/-- C2 counterexample: a single unrecognized trailing token without extractable
text (an Integer) makes the whole SET command fail with NotStr, contradicting
the claim that unrecognized trailing tokens are silently ignored and never
cause an error (which would demand success with no expiry and no mode). -/
theorem claim_C2_counterexample :
    SetCmd.tryFrom [RESPType.Str [107], RESPType.Str [118], RESPType.Integer 5] =
      .error (.conv .NotStr) ∧
    SetCmd.tryFrom [RESPType.Str [107], RESPType.Str [118], RESPType.Integer 5] ≠
      .ok ⟨[107], Value.Str [118], none, none⟩ := by
  refine ⟨rfl, ?_⟩
  intro h
  rw [show SetCmd.tryFrom [RESPType.Str [107], RESPType.Str [118], RESPType.Integer 5] =
      Except.error (RudisErr.conv ConvertErr.NotStr) from rfl] at h
  exact absurd h (by simp)

/-- C2 amended: after key and value, with at least two arguments left, the text
token e-x consumes the next argument as seconds and p-x as milliseconds; any
other token with extractable text consumes nothing; the following stage maps
text n-x to NX, x-x to XX, any other extractable text to no mode, silently and
without error; but a token whose text extraction fails (such as an Integer)
propagates that extraction error instead of being ignored. -/
theorem claim_C2_set_modifiers :
    (∀ (a0 a1 : RESPType) (key : List Nat) (value : Value) (b0 b1 : RESPType)
        (rest : List RESPType) (s : List Nat) (u : Nat),
        a0.get_string = .ok key → Value.tryFrom a1 = .ok value →
        b0.get_string = .ok [101, 120] → b1.get_string = .ok s → parseU64 s = some u →
        SetCmd.tryFrom (a0 :: a1 :: b0 :: b1 :: rest) =
          (parseSetx rest).map (fun sx => ⟨key, value, some (Duration.from_secs u), sx⟩)) ∧
    (∀ (a0 a1 : RESPType) (key : List Nat) (value : Value) (b0 b1 : RESPType)
        (rest : List RESPType) (s : List Nat) (u : Nat),
        a0.get_string = .ok key → Value.tryFrom a1 = .ok value →
        b0.get_string = .ok [112, 120] → b1.get_string = .ok s → parseU64 s = some u →
        SetCmd.tryFrom (a0 :: a1 :: b0 :: b1 :: rest) =
          (parseSetx rest).map (fun sx => ⟨key, value, some (Duration.from_millis u), sx⟩)) ∧
    (∀ (a0 a1 : RESPType) (key : List Nat) (value : Value) (b0 b1 : RESPType)
        (rest : List RESPType) (w : List Nat),
        a0.get_string = .ok key → Value.tryFrom a1 = .ok value →
        b0.get_string = .ok w → w ≠ [101, 120] → w ≠ [112, 120] →
        SetCmd.tryFrom (a0 :: a1 :: b0 :: b1 :: rest) =
          (parseSetx (b0 :: b1 :: rest)).map (fun sx => ⟨key, value, none, sx⟩)) ∧
    (∀ (a0 a1 : RESPType) (key : List Nat) (value : Value) (tail : List RESPType),
        a0.get_string = .ok key → Value.tryFrom a1 = .ok value → tail.length < 2 →
        SetCmd.tryFrom (a0 :: a1 :: tail) =
          (parseSetx tail).map (fun sx => ⟨key, value, none, sx⟩)) ∧
    (∀ (a0 a1 : RESPType) (key : List Nat) (value : Value) (b0 b1 : RESPType)
        (rest : List RESPType) (e : RudisErr),
        a0.get_string = .ok key → Value.tryFrom a1 = .ok value →
        b0.get_string = .error e →
        SetCmd.tryFrom (a0 :: a1 :: b0 :: b1 :: rest) = .error e) ∧
    (∀ (c0 : RESPType) (r : List RESPType), c0.get_string = .ok [110, 120] →
        parseSetx (c0 :: r) = .ok (some .NX)) ∧
    (∀ (c0 : RESPType) (r : List RESPType), c0.get_string = .ok [120, 120] →
        parseSetx (c0 :: r) = .ok (some .XX)) ∧
    (∀ (c0 : RESPType) (r : List RESPType) (w : List Nat), c0.get_string = .ok w →
        w ≠ [110, 120] → w ≠ [120, 120] → parseSetx (c0 :: r) = .ok none) ∧
    parseSetx [] = .ok none ∧
    (∀ (c0 : RESPType) (r : List RESPType) (e : RudisErr), c0.get_string = .error e →
        parseSetx (c0 :: r) = .error e) := by
  refine ⟨?_, ?_, ?_, ?_, ?_, fun c0 r h => parseSetx_nx h, fun c0 r h => parseSetx_xx h,
    fun c0 r w h h1 h2 => parseSetx_other h h1 h2, rfl,
    fun c0 r e h => parseSetx_err h⟩
  · intro a0 a1 key value b0 b1 rest s u hk hv hb0 hb1 hu
    exact setCmd_tryFrom_stages hk hv (parseExpire_ex hb0 hb1 hu)
  · intro a0 a1 key value b0 b1 rest s u hk hv hb0 hb1 hu
    exact setCmd_tryFrom_stages hk hv (parseExpire_px hb0 hb1 hu)
  · intro a0 a1 key value b0 b1 rest w hk hv hb0 h1 h2
    exact setCmd_tryFrom_stages hk hv (parseExpire_other hb0 h1 h2)
  · intro a0 a1 key value tail hk hv hlen
    exact setCmd_tryFrom_stages hk hv (parseExpire_short hlen)
  · intro a0 a1 key value b0 b1 rest e hk hv hb0
    unfold SetCmd.tryFrom
    simp only [hk, hv, parseExpire_err hb0]

/-- Witness for the amended C2: SET k 9 ex 10 nx parses to a SetCmd with a
ten-second expiry and NX mode. -/
theorem claim_C2_set_modifiers_witness :
    SetCmd.tryFrom [RESPType.Str [107], RESPType.Integer 9, RESPType.Str [101, 120],
        RESPType.Str [49, 48], RESPType.Str [110, 120]] =
      .ok ⟨[107], Value.Num 9, some (Duration.from_secs 10), some SetX.NX⟩ :=
  claim_C2_set_modifiers.1 (RESPType.Str [107]) (RESPType.Integer 9) [107] (Value.Num 9)
    (RESPType.Str [101, 120]) (RESPType.Str [49, 48]) [RESPType.Str [110, 120]]
    [49, 48] 10 rfl rfl rfl rfl rfl

/-- `many_m_n` depends on its element parser only through inputs no longer than
the initial buffer. -/
theorem manyExactP_congr (L : Nat) {p q : List Nat → Option (RESPType × List Nat)}
    (hpq : ∀ j, j.length ≤ L → p j = q j)
    (hp : ∀ j v r, p j = some (v, r) → r.length ≤ j.length) :
    ∀ (m : Nat) (i : List Nat), i.length ≤ L → manyExactP p m i = manyExactP q m i := by
  intro m
  induction m with
  | zero => intro i _; rfl
  | succ m ih =>
    intro i h
    rw [manyExactP, manyExactP, ← hpq i h]
    cases hp1 : p i with
    | none => rfl
    | some pr =>
      obtain ⟨v, rest⟩ := pr
      have hrest : rest.length ≤ i.length := hp i v rest hp1
      by_cases hlen : rest.length = i.length
      · simp only [if_pos hlen]
      · simp only [if_neg hlen]
        rw [ih rest (by omega)]

/-- A successful length line consumes at least three bytes. -/
theorem pi_consumes {c : Nat} {i : List Nat} {n : Int} {rest : List Nat}
    (h : pi c i = some (n, rest)) : rest.length + 3 ≤ i.length := by
  obtain ⟨s, hi, -, -, -⟩ := pi_some h
  rw [hi]
  simp only [List.length_cons, List.length_append]
  omega

/-- Fuel monotonicity: once the fuel covers the input length, adding more fuel
does not change the result, so `parse_raw`'s choice of fuel is canonical and
its failures are genuine. -/
theorem parseRawF_fuel : ∀ (f g : Nat) (i : List Nat), i.length ≤ f → f ≤ g →
    parseRawF f i = parseRawF g i := by
  intro f
  induction f with
  | zero =>
    intro g i h0 _
    have hnil : i = [] := List.eq_nil_of_length_eq_zero (by omega)
    subst hnil
    cases g with
    | zero => rfl
    | succ g => rfl
  | succ f ihf =>
    intro g i hlen hg
    cases g with
    | zero => omega
    | succ g =>
      rw [parseRawF, parseRawF]
      cases h1 : parse_str i with
      | some pr => rfl
      | none =>
        cases h2 : parse_err i with
        | some pr => rfl
        | none =>
          cases h3 : parse_integer i with
          | some pr => rfl
          | none =>
            cases h4 : parse_bulk_str i with
            | some pr => rfl
            | none =>
              unfold parse_arr
              cases h5 : pi 42 i with
              | none => rfl
              | some pr =>
                obtain ⟨len, rest⟩ := pr
                by_cases hneg : len = -1
                · simp only [if_pos hneg]
                · simp only [if_neg hneg]
                  have hrest3 := pi_consumes h5
                  have hcong := manyExactP_congr rest.length
                    (fun j hj => ihf g j (by omega) (by omega))
                    (fun j v r hh => (parseRawF_suffix f hh).length_le)
                    (usize len) rest (le_refl rest.length)
                  rw [hcong]

/-- The top-level parser computes the fuel-stable limit: any fuel at least the
input length gives exactly `parse_raw`. -/
theorem parse_raw_stable (i : List Nat) (f : Nat) (h : i.length ≤ f) :
    parseRawF f i = parse_raw i :=
  (parseRawF_fuel i.length f i (le_refl i.length) h).symm

/-- The embedding reproduces the repository's own decoder unit tests
(`test_resp_protocol` in src/protocol/resp.rs), byte for byte. -/
theorem resp_test_vectors :
    parse_raw [43, 102, 111, 111, 13, 10] = some (.Str [102, 111, 111], []) ∧
    parse_raw [45, 119, 114, 111, 110, 103, 13, 10] =
      some (.Error [119, 114, 111, 110, 103], []) ∧
    parse_raw [58, 45, 49, 48, 13, 10] = some (.Integer (-10), []) ∧
    parse_raw [58, 54, 53, 53, 51, 53, 13, 10] = some (.Integer 65535, []) ∧
    parse_raw [36, 49, 48, 13, 10, 97, 98, 99, 100, 101, 102, 103, 104, 105, 106, 13, 10] =
      some (.BulkStr (some [97, 98, 99, 100, 101, 102, 103, 104, 105, 106]), []) ∧
    parse_raw [36, 45, 49, 13, 10] = some (.BulkStr none, []) ∧
    parse_raw [42, 50, 13, 10, 43, 102, 111, 111, 13, 10, 45, 119, 114, 111, 110, 103, 13, 10] =
      some (.Arr (some [.Str [102, 111, 111], .Error [119, 114, 111, 110, 103]]), []) ∧
    parse_raw [42, 51, 13, 10, 42, 51, 13, 10, 58, 49, 13, 10, 58, 45, 50, 13, 10, 58, 51,
        13, 10, 36, 51, 13, 10, 116, 119, 101, 13, 10, 45, 113, 113, 113, 13, 10] =
      some (.Arr (some [.Arr (some [.Integer 1, .Integer (-2), .Integer 3]),
        .BulkStr (some [116, 119, 101]), .Error [113, 113, 113]]), []) ∧
    parse_raw [42, 45, 49, 13, 10] = some (.Arr none, []) :=
  ⟨rfl, rfl, rfl, rfl, rfl, rfl, rfl, rfl, rfl⟩

/-- The embedding reproduces the repository's command-layer unit tests
(`test_parse_commands` in src/command/commands.rs): each wire input decodes and
then interprets to the expected typed command. -/
theorem command_test_vectors :
    parse_raw [42, 50, 13, 10, 43, 103, 101, 116, 13, 10, 43, 102, 111, 111, 13, 10] =
      some (.Arr (some [.Str [103, 101, 116], .Str [102, 111, 111]]), []) ∧
    RedisCommands.tryFrom (.Arr (some [.Str [103, 101, 116], .Str [102, 111, 111]])) =
      .ok (.GetV ⟨[102, 111, 111]⟩) ∧
    parse_raw [42, 51, 13, 10, 43, 115, 101, 116, 13, 10, 43, 102, 111, 111, 13, 10,
        58, 52, 53, 54, 13, 10] =
      some (.Arr (some [.Str [115, 101, 116], .Str [102, 111, 111], .Integer 456]), []) ∧
    RedisCommands.tryFrom
        (.Arr (some [.Str [115, 101, 116], .Str [102, 111, 111], .Integer 456])) =
      .ok (.SetCmdV ⟨[102, 111, 111], .Num 456, none, none⟩) ∧
    parse_raw [42, 51, 13, 10, 36, 51, 13, 10, 115, 101, 116, 13, 10, 36, 53, 13, 10,
        109, 121, 107, 101, 121, 13, 10, 36, 53, 13, 10, 72, 101, 108, 108, 111, 13, 10] =
      some (.Arr (some [.BulkStr (some [115, 101, 116]), .BulkStr (some [109, 121, 107, 101, 121]),
        .BulkStr (some [72, 101, 108, 108, 111])]), []) ∧
    RedisCommands.tryFrom (.Arr (some [.BulkStr (some [115, 101, 116]),
        .BulkStr (some [109, 121, 107, 101, 121]), .BulkStr (some [72, 101, 108, 108, 111])])) =
      .ok (.SetCmdV ⟨[109, 121, 107, 101, 121], .BSStr [72, 101, 108, 108, 111], none, none⟩) ∧
    RedisCommands.tryFrom (.Arr (some [.BulkStr (some [103, 101, 116, 115, 101, 116]),
        .BulkStr (some [116, 104, 105, 115, 107, 101, 121]),
        .BulkStr (some [49, 50, 51, 52, 53])])) =
      .ok (.GetSetV ⟨[116, 104, 105, 115, 107, 101, 121], .BSStr [49, 50, 51, 52, 53]⟩) :=
  ⟨rfl, rfl, rfl, rfl, rfl, rfl, rfl⟩

/-- When the buffer supplies fewer than `m` decodable elements, `many_m_n`
demanding exactly `m` fails (with any sufficient fuel). -/
theorem manyExactP_chain_none (F : Nat) :
    ∀ (m : Nat) (i : List Nat), i.length ≤ F → parseChain m i = none →
      manyExactP (parseRawF F) m i = none := by
  intro m
  induction m with
  | zero =>
    intro i _ h
    simp [parseChain] at h
  | succ m ih =>
    intro i hF h
    rw [parseChain] at h
    rw [manyExactP]
    have hstable : parseRawF F i = parse_raw i := parse_raw_stable i F hF
    cases hp : parse_raw i with
    | none => rw [hstable, hp]
    | some pr =>
      obtain ⟨v, r⟩ := pr
      simp only [hp] at h
      rw [hstable, hp]
      have hp2 : parseRawF i.length i = some (v, r) := hp
      have hr : r.length ≤ i.length := (parseRawF_suffix i.length hp2).length_le
      by_cases hlen : r.length = i.length
      · simp only [if_pos hlen]
      · simp only [if_neg hlen]
        rw [ih r (by omega) h]

/-- An asterisk-prefixed value whose declared element count exceeds the number
of elements the remaining buffer can supply fails to decode. -/
theorem arr_fail_elems {i : List Nat} {len : Int} {rest : List Nat}
    (hpi : pi 42 i = some (len, rest)) (hneg : len ≠ -1)
    (hchain : parseChain (usize len) rest = none) : parse_raw i = none := by
  obtain ⟨s, hi, -, -, -⟩ := pi_some hpi
  rw [hi] at hpi
  have hrest3 : rest.length + 3 ≤ i.length := by
    rw [hi]
    simp only [List.length_cons, List.length_append]
    omega
  unfold parse_raw
  cases hL : i.length with
  | zero => rfl
  | succ F =>
    rw [parseRawF, hi]
    simp only [parse_str_head 42 (by decide), parse_err_head 42 (by decide),
      parse_integer_head 42 (by decide), parse_bulk_str_head 42 (by decide)]
    unfold parse_arr
    simp only [hpi]
    rw [if_neg hneg]
    rw [manyExactP_chain_none F (usize len) rest (by omega) hchain]

/-- C3: a bulk-string length line or array count line that parses as a negative
signed decimal other than -1 makes decoding fail (on any physically realizable
buffer, below 2^63 bytes); decoding also fails when a non-negative bulk length
demands more payload bytes than the remaining buffer holds, and when a
non-negative array count demands more decodable elements than the remaining
buffer supplies (iterated decoding cannot produce that many values). -/
theorem claim_C3_bad_lengths :
    (∀ (i : List Nat) (len : Int) (rest : List Nat),
        pi 36 i = some (len, rest) → len < 0 → len ≠ -1 → rest.length < 2 ^ 63 →
          parse_raw i = none) ∧
    (∀ (i : List Nat) (len : Int) (rest : List Nat),
        pi 36 i = some (len, rest) → 0 ≤ len → rest.length < len.toNat →
          parse_raw i = none) ∧
    (∀ (i : List Nat) (len : Int) (rest : List Nat),
        pi 42 i = some (len, rest) → len < 0 → len ≠ -1 → rest.length < 2 ^ 63 →
          parse_raw i = none) ∧
    (∀ (i : List Nat) (len : Int) (rest : List Nat),
        pi 42 i = some (len, rest) → 0 ≤ len → parseChain len.toNat rest = none →
          parse_raw i = none) := by
  refine ⟨?_, ?_, ?_, ?_⟩
  · intro i len rest hpi hneg hne hrest
    obtain ⟨s, -, -, -, hp64⟩ := pi_some hpi
    have hrange := parseI64_range hp64
    have hbig := usize_neg hrange.1 hneg
    exact bulk_fail hpi hne (by omega)
  · intro i len rest hpi h0 hrest
    obtain ⟨s, -, -, -, hp64⟩ := pi_some hpi
    have hrange := parseI64_range hp64
    refine bulk_fail hpi (by omega) ?_
    rw [usize_toNat h0 (by omega)]
    exact hrest
  · intro i len rest hpi hneg hne hrest
    obtain ⟨s, -, -, -, hp64⟩ := pi_some hpi
    have hrange := parseI64_range hp64
    have hbig := usize_neg hrange.1 hneg
    exact arr_fail hpi hne (by omega)
  · intro i len rest hpi h0 hchain
    obtain ⟨s, -, -, -, hp64⟩ := pi_some hpi
    have hrange := parseI64_range hp64
    refine arr_fail_elems hpi (by omega) ?_
    rw [usize_toNat h0 (by omega)]
    exact hchain

/-- Witness for C3: length -2 with payload, length 5 with a 2-byte buffer,
count -3, count 3 over a 4-byte buffer holding one decodable element, and
count 9 over a buffer holding one decodable element all fail. -/
theorem claim_C3_bad_lengths_witness :
    parse_raw [36, 45, 50, 13, 10, 97, 98] = none ∧
    parse_raw [36, 53, 13, 10, 97, 98] = none ∧
    parse_raw [42, 45, 51, 13, 10] = none ∧
    parse_raw [42, 51, 13, 10, 58, 49, 13, 10] = none ∧
    parse_raw [42, 57, 13, 10, 43, 97, 13, 10] = none :=
  ⟨claim_C3_bad_lengths.1 [36, 45, 50, 13, 10, 97, 98] (-2) [97, 98] rfl
      (by decide) (by decide) (by decide),
    claim_C3_bad_lengths.2.1 [36, 53, 13, 10, 97, 98] 5 [97, 98] rfl
      (by decide) (by decide),
    claim_C3_bad_lengths.2.2.1 [42, 45, 51, 13, 10] (-3) [] rfl
      (by decide) (by decide) (by decide),
    claim_C3_bad_lengths.2.2.2 [42, 51, 13, 10, 58, 49, 13, 10] 3 [58, 49, 13, 10] rfl
      (by decide) rfl,
    claim_C3_bad_lengths.2.2.2 [42, 57, 13, 10, 43, 97, 13, 10] 9 [43, 97, 13, 10] rfl
      (by decide) rfl⟩
